import Mathlib

set_option maxHeartbeats 1000000
set_option maxRecDepth 4000

deriving instance DecidableEq for Except

namespace KeepNote

/-! Shallow embedding of keepnote's HTML reader/writer core
(src/takenote/gui/richtext_html.py).  Machinery that the file imports from
modules not present in the analyzed source (textbuffer_tools, richtextbuffer,
the stdlib HTML tokenizer) is modelled from the specification and marked as
such in the doc comments. -/

/-- Python-level runtime errors the converter can raise. -/
inductive PyErr where
  | htmlError (msg : String)
  | valueError
  | indexError
  | keyError
  | unboundLocal
  | assertionError
deriving DecidableEq, Repr

/-- Embedded objects: RichTextImage (filename plus optional width/height) and
RichTextHorizontalRule. -/
inductive Anchor where
  | image (filename : String) (width height : Option Int)
  | hrule
deriving DecidableEq, Repr

/-- The tag vocabulary of the rich-text buffer (the RichText*Tag classes):
modifier tags, font size, justification, font family, fore/background color,
indent (level plus paragraph type), the bullet marker, the paragraph tag
(RichTextParTag, name "p"), and the plain list-item tag LI_TAG (name "li"). -/
inductive Tag where
  | mod (name : String)
  | size (n : Nat)
  | justify (name : String)
  | family (name : String)
  | fgcolor (c : String)
  | bgcolor (c : String)
  | indent (level : Nat) (parType : String)
  | bullet
  | par (kind : String)
  | li
deriving DecidableEq, Repr

/-- Content stream events.  The Python items are triples (kind, pos, param);
the position is never consulted by this file, so it is dropped.  "begin"/"end"
carry typed tags (write path), "beginstr"/"endstr" carry parser-level tag name
strings (read path). -/
inductive Item where
  | text (s : String)
  | anchor (a : Anchor)
  | begin (t : Tag)
  | endt (t : Tag)
  | beginstr (s : String)
  | endstr (s : String)
deriving DecidableEq, Repr

/-- The bullet glyph BULLET_STR = u"• " (line 50). -/
def BULLET_STR : String := "• "

/-! ### String helpers (Python string semantics on explicit char lists) -/

/-- Characters matched by the reader's whitespace regexes "[\n ]": newline and
space only. -/
def isNlSp (c : Char) : Bool := c == '\n' || c == ' '

/-- Characters stripped by Python str.strip(). -/
def isPyWs (c : Char) : Bool :=
  c == ' ' || c == '\t' || c == '\n' || c == '\r' || c == '\x0b' || c == '\x0c'

/-- Python str.strip(). -/
def pyStrip (s : String) : String :=
  String.mk (((s.toList.dropWhile isPyWs).reverse.dropWhile isPyWs).reverse)

/-- Does list l start with the pattern p? -/
def listStartsWith : List Char → List Char → Bool
  | [], _ => true
  | _ :: _, [] => false
  | p :: ps, c :: cs => p == c && listStartsWith ps cs

/-- Python str.startswith. -/
def pyStartsWith (s pre : String) : Bool := listStartsWith pre.toList s.toList

/-- Split a char list on a separator character, keeping empty pieces
(Python str.split(sep) with a one-character separator). -/
def splitOnCharList (sep : Char) : List Char → List (List Char)
  | [] => [[]]
  | c :: rest =>
    let r := splitOnCharList sep rest
    if c == sep then [] :: r
    else
      match r with
      | [] => [[c]]
      | h :: t => (c :: h) :: t

/-- Python str.split(sep) for a one-character separator. -/
def pySplit (s : String) (sep : Char) : List String :=
  (splitOnCharList sep s.toList).map String.mk

/-- Python slice s[i:j] (as chars). -/
def sliceStr (full : List Char) (i j : Nat) : String :=
  String.mk ((full.drop i).take (j - i))

/-- Lower-case a string (the stdlib tokenizer lower-cases tag/attr names). -/
def strLower (s : String) : String := String.mk (s.toList.map Char.toLower)

/-! ### Indent un-nesting, read path (unnest_indent_tags, lines 126-179) -/

/-- The loop of unnest_indent_tags.  State: integer indent level and the stack
of open list-item tag strings.  "ol" events adjust the level, "li ..." events
close the previous item, open "indent <level> <parType>" (emitting the synthetic
bullet span for bullet items), and on close resume the parent item; everything
else passes through.  Popping an empty stack is Python's IndexError. -/
def unnestGo (indentLvl : Int) (liStack : List String) : List Item → Except PyErr (List Item)
  | [] => .ok []
  | it :: rest =>
    match it with
    | .beginstr p =>
      if p == "ol" then unnestGo (indentLvl + 1) liStack rest
      else if pyStartsWith p "li" then
        let closePrev : List Item :=
          match liStack with
          | [] => []
          | top :: _ => [.endstr top]
        let parType := String.mk (p.toList.drop 3)
        let tagstr := "indent " ++ toString indentLvl ++ " " ++ parType
        let bulletPart : List Item :=
          if parType == "bullet" then
            [.beginstr "bullet", .text BULLET_STR, .endstr "bullet"]
          else []
        (unnestGo indentLvl (tagstr :: liStack) rest).map
          (fun out => closePrev ++ [.beginstr tagstr] ++ bulletPart ++ out)
      else (unnestGo indentLvl liStack rest).map (fun out => it :: out)
    | .endstr p =>
      if p == "ol" then unnestGo (indentLvl - 1) liStack rest
      else if pyStartsWith p "li" then
        let parType := String.mk (p.toList.drop 3)
        match liStack with
        | [] => .error .indexError
        | _ :: stackRest =>
          let resume : List Item :=
            match stackRest with
            | [] => []
            | top :: _ => [.beginstr top]
          (unnestGo indentLvl stackRest rest).map
            (fun out =>
              [Item.endstr ("indent " ++ toString indentLvl ++ " " ++ parType)] ++ resume ++ out)
      else (unnestGo indentLvl liStack rest).map (fun out => it :: out)
    | _ => (unnestGo indentLvl liStack rest).map (fun out => it :: out)

/-- unnest_indent_tags: convert nested indents (parser-level events) to the
flat form, starting with indent 0 and an empty item stack. -/
def unnest_indent_tags (contents : List Item) : Except PyErr (List Item) :=
  unnestGo 0 [] contents

/-! ### Indent nesting, write path (nest_indent_tags, lines 53-123) -/

/-- Modelled from the spec: richtextbuffer.py (not in src/) defines
RichTextIndentTag.tag_name and the interning tag-table lookup used by
nest_indent_tags.  Per the data model an indent tag is identified by its level
and paragraph type (name "indent <level> <parType>"); tag_name is called with
the bare level, so the looked-up interned tag is the level-n tag with the
default paragraph type "none". -/
def lookupIndentTag (level : Nat) : Tag := .indent level "none"

/-- The closing events emitted by "while indent > next_indent": ends for levels
d, d-1, ..., n+1. -/
def closeDownSeq : Nat → Nat → List Item
  | 0, _ => []
  | d + 1, n => if n < d + 1 then .endt (lookupIndentTag (d + 1)) :: closeDownSeq d n else []

/-- Close all open indents (down to level 0). -/
def closeSeq (d : Nat) : List Item := closeDownSeq d 0

/-- The opening events emitted by "while indent < next_indent" for k more
levels above d: begins for levels d+1, ..., d+k. -/
def openFrom (d : Nat) : Nat → List Item
  | 0 => []
  | k + 1 => .begin (lookupIndentTag (d + 1)) :: openFrom (d + 1) k

/-- The opening events emitted by "while indent < next_indent": begins for
levels d+1, ..., n. -/
def openSeq (d n : Nat) : List Item := openFrom d (n - d)

/-- The loop of nest_indent_tags.  State: current indent depth and the pending
"indent_closing" flag set by an indent end event.  When closing, the next item
decides: text/anchor closes everything, a lower indent begin closes down to its
level, anything else leaves the decision pending.  A begin indent below the
current depth is the source's assert failure. -/
def nestGo (d : Nat) (closing : Bool) : List Item → Except PyErr (List Item)
  | [] => .ok (closeSeq d)
  | it :: rest =>
    let pre : List Item × Nat × Bool :=
      if closing then
        match it with
        | .text _ => (closeSeq d, 0, false)
        | .anchor _ => (closeSeq d, 0, false)
        | .begin (.indent n _) => (closeDownSeq d n, min d n, false)
        | _ => ([], d, true)
      else ([], d, false)
    let em := pre.1
    let d1 := pre.2.1
    let c1 := pre.2.2
    match it with
    | .begin (.indent n _) =>
      if n < d1 then .error .assertionError
      else (nestGo n c1 rest).map (fun out => em ++ openSeq d1 n ++ out)
    | .endt (.indent _ _) =>
      (nestGo d1 true rest).map (fun out => em ++ out)
    | _ =>
      (nestGo d1 c1 rest).map (fun out => em ++ [it] ++ out)

/-- nest_indent_tags: convert flat indent tags so that they nest like HTML
tags. -/
def nest_indent_tags (contents : List Item) : Except PyErr (List Item) :=
  nestGo 0 false contents

/-! ### Paragraph wrapping, write path (find_paragraphs, lines 182-259) -/

/-- P_TAG: the paragraph tag of kind "none". -/
def P_TAG : Tag := .par "none"

/-- P_BULLET_TAG: the paragraph tag of kind "bullet". -/
def P_BULLET_TAG : Tag := .par "bullet"

/-- The pars dictionary lookup: pars = {"none": P_TAG, "bullet": P_BULLET_TAG};
any other key is Python's KeyError. -/
def parsOf : String → Except PyErr Tag
  | "none" => .ok P_TAG
  | "bullet" => .ok P_BULLET_TAG
  | _ => .error .keyError

/-- Open a paragraph if not already within one (the repeated
"if not within_par" idiom): returns the emitted events and the new
within/stack state. -/
def fpOpen (ptype : String) (within : Bool) (stk : List Tag) :
    Except PyErr (List Item × Bool × List Tag) :=
  if within then .ok ([], within, stk)
  else (parsOf ptype).map (fun ptag => ([Item.begin ptag], true, ptag :: stk))

/-- The per-character loop of find_paragraphs over one text item (lines
209-221): j is the running index, i the start of the current segment; each
newline flushes the segment and closes the open paragraph. -/
def fpChars (full : List Char) (ptype : String) :
    List Char → Nat → Nat → Bool → List Tag →
    Except PyErr (List Item × Bool × List Tag × Nat)
  | [], _, i, within, stk => .ok ([], within, stk, i)
  | c :: cs, j, i, within, stk => do
    let (openEv, w1, stk1) ← fpOpen ptype within stk
    if c == '\n' then
      match stk1 with
      | [] => .error .indexError
      | top :: stkRest => do
        let (out, w2, s2, i2) ← fpChars full ptype cs (j + 1) (j + 1) false stkRest
        .ok (openEv ++ [Item.text (sliceStr full i (j + 1)), Item.endt top] ++ out, w2, s2, i2)
    else do
      let (out, w2, s2, i2) ← fpChars full ptype cs (j + 1) i w1 stk1
      .ok (openEv ++ out, w2, s2, i2)

/-- Processing of one text item by find_paragraphs: open a paragraph if
needed, run the character loop, then the trailing-text check "if i < j+1".
The loop index j is a Python function-local: it keeps its value from the last
non-empty text item, and reading it before any character was ever enumerated
is the UnboundLocalError. -/
def fpText (s : String) (ptype : String) (within : Bool) (stk : List Tag)
    (jb : Option Nat) :
    Except PyErr (List Item × Bool × List Tag × Option Nat) := do
  let chars := s.toList
  let (openEv, w1, stk1) ← fpOpen ptype within stk
  let (loopEv, w2, stk2, iFin) ← fpChars chars ptype chars 0 0 w1 stk1
  let jb2 := if chars.isEmpty then jb else some (chars.length - 1)
  match jb2 with
  | none => .error .unboundLocal
  | some j =>
    if iFin < j + 1 then do
      let (openEv2, w3, stk3) ← fpOpen ptype w2 stk2
      .ok (openEv ++ loopEv ++ openEv2 ++ [Item.text (sliceStr chars iFin (j + 1))],
           w3, stk3, jb2)
    else
      .ok (openEv ++ loopEv, w2, stk2, jb2)

/-- The loop of find_paragraphs.  State: within_par, the queued non-content
items (others), the current paragraph type, the paragraph stack, and the
last-bound character index.  Text and anchors flush the queue and are wrapped;
a begin of an indent tag updates the paragraph type; at stream end an open
paragraph is closed before the queue is flushed. -/
def fpGo (within : Bool) (others : List Item) (ptype : String) (stk : List Tag)
    (jb : Option Nat) : List Item → Except PyErr (List Item)
  | [] => do
    let closeEv ←
      if within then
        match stk with
        | [] => .error .indexError
        | top :: _ => pure [Item.endt top]
      else pure []
    .ok (closeEv ++ others)
  | it :: rest =>
    match it with
    | .text s => do
      let (ev, w2, stk2, jb2) ← fpText s ptype within stk jb
      let out ← fpGo w2 [] ptype stk2 jb2 rest
      .ok (others ++ ev ++ out)
    | .anchor _ => do
      let (openEv, w1, stk1) ← fpOpen ptype within stk
      let out ← fpGo w1 [] ptype stk1 jb rest
      .ok (others ++ openEv ++ [it] ++ out)
    | .begin (.indent _ pt) => fpGo within (others ++ [it]) pt stk jb rest
    | _ => fpGo within (others ++ [it]) ptype stk jb rest

/-- find_paragraphs: wrap each paragraph with a pair of paragraph tags. -/
def find_paragraphs (contents : List Item) : Except PyErr (List Item) :=
  fpGo false [] "none" [] none contents

/-! ### Character-data whitespace handling (handle_data, lines 629-643) -/

mutual

/-- Model of re.sub("[\n ]+", " ", data): scan the characters; a newline/space
starts a run that is replaced by a single space. -/
def pyCollapseWs : List Char → List Char
  | [] => []
  | c :: cs => if isNlSp c then ' ' :: pySkipWs cs else c :: pyCollapseWs cs

/-- Skip the rest of a newline/space run. -/
def pySkipWs : List Char → List Char
  | [] => []
  | c :: cs => if isNlSp c then pySkipWs cs else c :: pyCollapseWs cs

end

/-- Model of re.sub("^\n[\n ]*", "", data): when the data starts with a
newline, that newline and the whole following newline/space run are removed;
otherwise the data is unchanged. -/
def pyStripLead (l : List Char) : List Char :=
  match l with
  | [] => []
  | c :: rest => if c == '\n' then rest.dropWhile isNlSp else c :: rest

/-- The pure data transform of handle_data: with the just-saw-newline flag the
leading-strip substitution runs first, then runs of newline/space collapse. -/
def handleDataTransform (newline : Bool) (s : String) : String :=
  String.mk (pyCollapseWs (if newline then pyStripLead s.toList else s.toList))

/-! ### Style attribute parsing (parse_style, lines 400-464) -/

/-- The set of accepted justification values (self._justify, lines 309-314). -/
def justifySet : List String := ["left", "center", "right", "fill", "justify"]

/-- Digits of a string, as filtered by filter(lambda x: x.isdigit(), ...). -/
def digitsOf (l : List Char) : List Char := l.filter Char.isDigit

/-- Value of a digit string (Python int() on an all-digit string). -/
def digitsToNat (l : List Char) : Nat :=
  l.foldl (fun a c => a * 10 + (c.toNat - '0'.toNat)) 0

/-- One step of the 4-digit #RGB shorthand expansion: x,a,b,c becomes
x+a+a+b+b+c+c (lines 437-439 and 449-451). -/
def expandColor (c : String) : String :=
  match c.toList with
  | [x, a, b, cc] => String.mk [x, a, a, b, b, cc, cc]
  | _ => c

/-- The color branch shared by color and background-color: strip the value;
only values starting with "#" are considered, 4-char shorthands are expanded,
and only a 7-char result produces a tag string. -/
def colorTagstr (kind : String) (v : String) : Option String :=
  let c0 := pyStrip v
  if pyStartsWith c0 "#" then
    let c1 := if c0.toList.length == 4 then expandColor c0 else c0
    if c1.toList.length == 7 then some (kind ++ " " ++ c1) else none
  else none

/-- One style declaration of parse_style (lines 404-458): returns the tag
string opened for this statement, if any.  Failure modes: a missing ":" where
index [1] is read is IndexError, int() of an empty digit string is ValueError,
and an unknown justification raises HtmlError. -/
def styleStep (statementRaw : String) : Except PyErr (Option String) :=
  let st := pyStrip statementRaw
  if pyStartsWith st "font-size" then
    match (pySplit st ':').drop 1 with
    | [] => .error .indexError
    | v :: _ =>
      let ds := digitsOf v.toList
      if ds.isEmpty then .error .valueError
      else .ok (some ("size " ++ toString (digitsToNat ds)))
  else if pyStartsWith st "font-family" then
    match (pySplit st ':').drop 1 with
    | [] => .error .indexError
    | v :: _ => .ok (some ("family " ++ pyStrip v))
  else if pyStartsWith st "text-align" then
    match (pySplit st ':').drop 1 with
    | [] => .error .indexError
    | v :: _ =>
      let align := pyStrip v
      if !(justifySet.contains align) then
        .error (.htmlError ("unknown justification '" ++ align ++ "'"))
      else if align == "justify" then .ok (some "fill")
      else .ok (some align)
  else if pyStartsWith st "color" then
    match (pySplit st ':').drop 1 with
    | [] => .error .indexError
    | v :: _ => .ok (colorTagstr "fg_color" v)
  else if pyStartsWith st "background-color" then
    match (pySplit st ':').drop 1 with
    | [] => .error .indexError
    | v :: _ => .ok (colorTagstr "bg_color" v)
  else .ok none

/-- Process the statements of a style attribute in order; the first failing
statement aborts the rest. -/
def parse_style_stmts : List String → Except PyErr (List String)
  | [] => .ok []
  | s :: rest => do
    let t ← styleStep s
    let out ← parse_style_stmts rest
    .ok (t.toList ++ out)

/-- parse_style: split the style attribute on ";" and process each
declaration, collecting the tag strings that open nested elements. -/
def parse_style (stylestr : String) : Except PyErr (List String) :=
  parse_style_stmts (pySplit stylestr ';')

/-- tagcolor_to_html (lines 945-947): assert len 13, then pick characters
0,1,2,5,6,9,10 of the internal 13-char color. -/
def tagcolor_to_html (c : String) : Except PyErr String :=
  let l := c.toList
  if l.length == 13 then
    .ok (String.mk [l.getD 0 ' ', l.getD 1 ' ', l.getD 2 ' ', l.getD 5 ' ',
                    l.getD 6 ' ', l.getD 9 ' ', l.getD 10 ' '])
  else .error .assertionError

/-! ### The document tree

Modelled from the spec: the DOM classes (TextBufferDom, TextDom, AnchorDom,
TagDom, TagNameDom with the LiHtmlTagDom subclass defined in this file) live in
textbuffer_tools.py, which is not in src/.  Per the data model the tree is an
ownership tree of text, anchor and element nodes with ordered children,
"mutated in place via insert-before/append/remove/replace-child operations
that preserve sibling order"; following the spec's design note it is embedded
as an arena of nodes addressed by index with parent back-references. -/

/-- Node payloads: the synthetic root container, text, anchors, typed tag
elements (TagDom), list items carrying their kind (LiHtmlTagDom), and
string-named elements (TagNameDom). -/
inductive NContent where
  | root
  | textN (s : String)
  | anchorN (a : Anchor)
  | tagN (t : Tag)
  | liN (kind : String)
  | namedN (s : String)
deriving DecidableEq, Repr

/-- One arena node. -/
structure Node where
  content : NContent
  children : List Nat
  parent : Option Nat
deriving DecidableEq, Repr

/-- The node arena; node ids are indices. -/
structure Arena where
  nodes : List Node
deriving DecidableEq, Repr

/-- The default (detached root) node, used for out-of-range reads. -/
def defaultNode : Node := ⟨.root, [], none⟩

def Arena.get (a : Arena) (i : Nat) : Node := a.nodes.getD i defaultNode

def Arena.setNode (a : Arena) (i : Nat) (n : Node) : Arena := ⟨a.nodes.set i n⟩

/-- Allocate a fresh detached node; returns the new arena and the node id. -/
def Arena.newNode (a : Arena) (c : NContent) : Arena × Nat :=
  (⟨a.nodes ++ [⟨c, [], none⟩]⟩, a.nodes.length)

/-- append_child. -/
def Arena.appendChild (a : Arena) (p c : Nat) : Arena :=
  let pn := a.get p
  let a1 := a.setNode p { pn with children := pn.children ++ [c] }
  let cn := a1.get c
  a1.setNode c { cn with parent := some p }

def Arena.lastChild (a : Arena) (i : Nat) : Option Nat := (a.get i).children.getLast?

def Arena.firstChild (a : Arena) (i : Nat) : Option Nat := (a.get i).children.head?

/-- The element of a list right before the first occurrence of i, if any. -/
def prevIn : List Nat → Nat → Option Nat
  | [], _ => none
  | [_], _ => none
  | x :: y :: rest, i =>
    if x == i then none
    else if y == i then some x
    else prevIn (y :: rest) i

/-- prev_sibling. -/
def Arena.prevSibling (a : Arena) (i : Nat) : Option Nat :=
  match (a.get i).parent with
  | none => none
  | some p => prevIn ((a.get p).children) i

/-- Insert nw right before the first occurrence of ref (append when absent;
callers only use it with a present reference). -/
def insBeforeList (l : List Nat) (ref nw : Nat) : List Nat :=
  match l with
  | [] => [nw]
  | x :: rest => if x == ref then nw :: x :: rest else x :: insBeforeList rest ref nw

/-- insert_before: place child nw before child ref of p. -/
def Arena.insertBefore (a : Arena) (p ref nw : Nat) : Arena :=
  let pn := a.get p
  let a1 := a.setNode p { pn with children := insBeforeList pn.children ref nw }
  a1.setNode nw { a1.get nw with parent := some p }

/-- remove: detach node i from its parent. -/
def Arena.removeNode (a : Arena) (i : Nat) : Arena :=
  match (a.get i).parent with
  | none => a
  | some p =>
    let pn := a.get p
    let a1 := a.setNode p { pn with children := pn.children.erase i }
    a1.setNode i { a1.get i with parent := none }

/-- replace_child: substitute new for old in old's parent. -/
def Arena.replaceInParent (a : Arena) (old nw : Nat) : Arena :=
  match (a.get old).parent with
  | none => a
  | some p =>
    let pn := a.get p
    let a1 := a.setNode p
      { pn with children := pn.children.map (fun c => if c == old then nw else c) }
    let a2 := a1.setNode old { a1.get old with parent := none }
    a2.setNode nw { a2.get nw with parent := some p }

/-- is_leaf: a node with no children. -/
def Arena.isLeaf (a : Arena) (i : Nat) : Bool := (a.get i).children.isEmpty

/-! ### The HTML reader state machine (class HtmlBuffer, reading side) -/

/-- Parser callback events, as delivered by the stdlib HTMLParser. -/
inductive Sax where
  | start (name : String) (attrs : List (String × String))
  | endT (name : String)
  | dataS (s : String)
  | entity (name : String)
  | charref (name : String)
deriving DecidableEq, Repr

/-- The reader's mutable state: the DOM under construction, the insertion
point, the (tag name, saved insertion point) stack with its root sentinel, the
within-body and partial flags, and the just-saw-newline flag. -/
structure RState where
  arena : Arena
  rootId : Nat
  domPtr : Nat
  tagStack : List (Option String × Nat)
  withinBody : Bool
  partialMode : Bool
  newline : Bool
deriving DecidableEq, Repr

/-- Initial reader state for one read() call (lines 348-353). -/
def initReader (pm : Bool) : RState :=
  { arena := ⟨[defaultNode]⟩, rootId := 0, domPtr := 0,
    tagStack := [(none, 0)], withinBody := false, partialMode := pm,
    newline := false }

/-- append_text (lines 391-397): merge into a trailing text node, else append
a new one; empty strings are dropped. -/
def appendTextDom (st : RState) (s : String) : RState :=
  if s.toList.isEmpty then st
  else
    match st.arena.lastChild st.domPtr with
    | some c =>
      match (st.arena.get c).content with
      | .textN old =>
        { st with arena := st.arena.setNode c { st.arena.get c with content := .textN (old ++ s) } }
      | _ =>
        let (a1, nid) := st.arena.newNode (.textN s)
        { st with arena := a1.appendChild st.domPtr nid }
    | none =>
      let (a1, nid) := st.arena.newNode (.textN s)
      { st with arena := a1.appendChild st.domPtr nid }

/-- Append a named element at the insertion point and descend into it. -/
def descendNamed (st : RState) (s : String) : RState :=
  let (a1, nid) := st.arena.newNode (.namedN s)
  { st with arena := a1.appendChild st.domPtr nid, domPtr := nid }

/-- The _html2buffer_tag mapping (lines 298-302). -/
def html2bufferTag : String → Option String
  | "b" => some "bold"
  | "i" => some "italic"
  | "u" => some "underline"
  | "nobr" => some "nowrap"
  | _ => none

/-- The _buffer_tag2html mapping (lines 303-308). -/
def buffer_tag2html : String → Option String
  | "bold" => some "b"
  | "italic" => some "i"
  | "underline" => some "u"
  | "nowrap" => some "nobr"
  | _ => none

/-- The per-statement loop of parse_style (lines 404-464): each declaration
that yields a tag string appends a TagNameDom at the insertion point and
descends into it before the next declaration is examined, so a declaration
that raises aborts with the elements opened by the preceding declarations
already in the tree. -/
def applyStyleStmts (st : RState) : List String → RState × Option PyErr
  | [] => (st, none)
  | s :: rest =>
    match styleStep s with
    | .error e => (st, some e)
    | .ok none => applyStyleStmts st rest
    | .ok (some ts) => applyStyleStmts (descendNamed st ts) rest

/-- Apply parse_style for each style attribute of a span/div (lines 567-569,
404-464): split on ";" and process the declarations in order; a parse error
aborts mid-way with the state built so far. -/
def applyStyleAttrs (st : RState) : List (String × String) → RState × Option PyErr
  | [] => (st, none)
  | (k, v) :: rest =>
    if k == "style" then
      match applyStyleStmts st (pySplit v ';') with
      | (st2, some e) => (st2, some e)
      | (st2, none) => applyStyleAttrs st2 rest
    else applyStyleAttrs st rest

/-- Python int() on a general string: strip, optional sign, all digits. -/
def pyInt (s : String) : Option Int :=
  let t := (pyStrip s).toList
  match t with
  | '-' :: ds => if ds ≠ [] && ds.all Char.isDigit then some (-(digitsToNat ds : Int)) else none
  | '+' :: ds => if ds ≠ [] && ds.all Char.isDigit then some ((digitsToNat ds : Int)) else none
  | ds => if ds ≠ [] && ds.all Char.isDigit then some ((digitsToNat ds : Int)) else none

/-- parse_image (lines 467-497): src sets the filename, width/height are
parsed as ints with ValueError silently ignored; scale(width, height) is
modelled from the spec as the size setter accepting either dimension
omitted. -/
def parseImage (attrs : List (String × String)) : Anchor :=
  let step := fun (acc : String × Option Int × Option Int) (kv : String × String) =>
    let (fn, w, h) := acc
    if kv.1 == "src" then (kv.2, w, h)
    else if kv.1 == "width" then
      match pyInt kv.2 with
      | some n => (fn, some n, h)
      | none => (fn, w, h)
    else if kv.1 == "height" then
      match pyInt kv.2 with
      | some n => (fn, w, some n)
      | none => (fn, w, h)
    else (fn, w, h)
  let (fn, w, h) := attrs.foldl step ("", none, none)
  .image fn w h

/-- The list-style-type scan of the li start handler (lines 579-587): each
statement must split on ":" into exactly two parts (else ValueError), and
"list-style-type: disc" selects the bullet type. -/
def liStyleScan (cur : String) : List String → Except PyErr String
  | [] => .ok cur
  | stmt :: rest =>
    match pySplit stmt ':' with
    | [k2, v2] =>
      let cur2 := if pyStrip k2 == "list-style-type" && pyStrip v2 == "disc" then "bullet" else cur
      liStyleScan cur2 rest
    | _ => .error .valueError

/-- The paragraph type of an li start tag, scanning its style attributes. -/
def liParType (cur : String) : List (String × String) → Except PyErr String
  | [] => .ok cur
  | (k, v) :: rest =>
    if k == "style" then do
      let cur2 ← liStyleScan cur (pySplit v ';')
      liParType cur2 rest
    else liParType cur rest

/-- handle_starttag (lines 500-595): clear the newline flag, push the tag with
the current insertion point, then dispatch on the tag name. -/
def handleStart (st0 : RState) (name : String) (attrs : List (String × String)) :
    RState × Option PyErr :=
  let st := { st0 with newline := false,
                       tagStack := (some name, st0.domPtr) :: st0.tagStack }
  if name == "html" then (st, none)
  else if name == "body" then ({ st with withinBody := true }, none)
  else
    match html2bufferTag name with
    | some tagstr => (descendNamed st tagstr, none)
    | none =>
      if name == "span" || name == "div" then applyStyleAttrs st attrs
      else if name == "p" then (appendTextDom st "\n", none)
      else if name == "br" then ({ appendTextDom st "\n" with newline := true }, none)
      else if name == "hr" then
        let st1 := appendTextDom st "\n"
        let (a1, nid) := st1.arena.newNode (.anchorN .hrule)
        let st2 := { st1 with arena := a1.appendChild st1.domPtr nid }
        (appendTextDom st2 "\n", none)
      else if name == "img" then
        let img := parseImage attrs
        let (a1, nid) := st.arena.newNode (.anchorN img)
        ({ st with arena := a1.appendChild st.domPtr nid }, none)
      else if name == "ul" || name == "ol" then (descendNamed st "ol", none)
      else if name == "li" then
        match liParType "none" attrs with
        | .error e => (st, some e)
        | .ok pt => (descendNamed st ("li " ++ pt), none)
      else (st, none)

/-- The pop loop of handle_endtag (lines 620-625): one mandatory pop, then keep
popping while the stack is non-empty and the popped name differs from the
target; the insertion point is the one saved with the last popped entry. -/
def popTo (stack : List (Option String × Nat)) (ptr : Nat) (last : Option String)
    (target : String) : List (Option String × Nat) × Nat :=
  match stack with
  | [] => (stack, ptr)
  | (n1, p1) :: rest =>
    if last == some target then (stack, ptr) else popTo rest p1 n1 target

/-- handle_endtag (lines 599-625): gate on body unless partial, maintain the
newline flag (list closers set it, p appends a newline), then pop the stack
down to the matching open tag. -/
def handleEnd (st0 : RState) (name : String) : RState :=
  if !st0.partialMode && (name == "html" || name == "body" || !st0.withinBody) then st0
  else
    let st1 := if name != "br" then { st0 with newline := false } else st0
    let st2 :=
      if name == "ul" || name == "ol" || name == "li" then { st1 with newline := true }
      else if name == "p" then appendTextDom st1 "\n"
      else st1
    match st2.tagStack with
    | [] => st2
    | (n0, p0) :: rest =>
      let (stack2, ptr2) := popTo rest p0 n0 name
      { st2 with tagStack := stack2, domPtr := ptr2 }

/-- handle_data (lines 629-643): gate on body unless partial, apply the
whitespace transform (with leading strip when the newline flag is set), clear
the flag, and append the result. -/
def handleData (st : RState) (s : String) : RState :=
  if !st.partialMode && !st.withinBody then st
  else
    let s2 := handleDataTransform st.newline s
    appendTextDom { st with newline := false } s2

/-- The _entity2char mapping (lines 324-330). -/
def entity2char : String → String
  | "amp" => "&"
  | "gt" => ">"
  | "lt" => "<"
  | "nbsp" => " "
  | _ => ""

/-- handle_entityref (lines 646-650). -/
def handleEntity (st : RState) (name : String) : RState :=
  if !st.partialMode && !st.withinBody then st
  else appendTextDom st (entity2char name)

/-- handle_charref (lines 653-657): only "09" maps to a tab. -/
def handleCharref (st : RState) (name : String) : RState :=
  if !st.partialMode && !st.withinBody then st
  else appendTextDom st (if name == "09" then "\t" else "")

/-- Run the reader over a callback event stream, stopping at the first raised
error and returning the state built so far (the partially constructed tree)
together with the error. -/
def runReader (st : RState) : List Sax → RState × Option PyErr
  | [] => (st, none)
  | ev :: rest =>
    let stepped : RState × Option PyErr :=
      match ev with
      | .start n a => handleStart st n a
      | .endT n => (handleEnd st n, none)
      | .dataS s => (handleData st s, none)
      | .entity n => (handleEntity st n, none)
      | .charref n => (handleCharref st n, none)
    match stepped.2 with
    | some e => (stepped.1, some e)
    | none => runReader stepped.1 rest

/-! ### HTML tokenization

Models the behavior of Python's stdlib HTMLParser (external library, not
repository code) on the HTML this converter reads and writes: start tags with
double-quoted, unquoted or bare attributes, end tags, self-closing tags
(dispatched by the default handle_startendtag as a start followed by an end),
character data runs, entity references and numeric character references.  Tag
and attribute names are lower-cased. -/

/-- Characters allowed in tag/attribute names. -/
def isNameChar (c : Char) : Bool :=
  c.isAlphanum || c == '-' || c == '.' || c == '_' || c == ':'

/-- Lex the attribute region of a start tag up to ">" or "/>".  Returns the
attributes, the remaining input, and whether the tag was self-closing. -/
def lexAttrs (fuel : Nat) (l : List Char) : List (String × String) × List Char × Bool :=
  match fuel with
  | 0 => ([], l, false)
  | f + 1 =>
    let l1 := l.dropWhile (fun c => c == ' ' || c == '\n' || c == '\t' || c == '\r')
    match l1 with
    | [] => ([], [], false)
    | '>' :: rest => ([], rest, false)
    | '/' :: '>' :: rest => ([], rest, true)
    | _ =>
      let key := l1.takeWhile isNameChar
      let l2 := l1.dropWhile isNameChar
      if key.isEmpty then ([], l2.drop 1, false)
      else
        match l2 with
        | '=' :: '"' :: rest =>
          let v := rest.takeWhile (fun c => c != '"')
          let rest2 := (rest.dropWhile (fun c => c != '"')).drop 1
          let (as, r, sc) := lexAttrs f rest2
          ((strLower (String.mk key), String.mk v) :: as, r, sc)
        | '=' :: rest =>
          let v := rest.takeWhile (fun c => c != ' ' && c != '>')
          let rest2 := rest.dropWhile (fun c => c != ' ' && c != '>')
          let (as, r, sc) := lexAttrs f rest2
          ((strLower (String.mk key), String.mk v) :: as, r, sc)
        | _ =>
          let (as, r, sc) := lexAttrs f l2
          ((strLower (String.mk key), "") :: as, r, sc)

/-- Tokenize an HTML character stream into parser callback events. -/
def tokGo (fuel : Nat) (l : List Char) : List Sax :=
  match fuel, l with
  | 0, _ => []
  | _, [] => []
  | f + 1, '<' :: '/' :: rest =>
    let nm := rest.takeWhile isNameChar
    let rest2 := (rest.dropWhile isNameChar).dropWhile (fun c => c != '>')
    .endT (strLower (String.mk nm)) :: tokGo f (rest2.drop 1)
  | f + 1, '<' :: rest =>
    let nm := rest.takeWhile isNameChar
    if nm.isEmpty then .dataS "<" :: tokGo f rest
    else
      let (attrs, rest2, selfClose) := lexAttrs f (rest.dropWhile isNameChar)
      let name := strLower (String.mk nm)
      if selfClose then .start name attrs :: .endT name :: tokGo f rest2
      else .start name attrs :: tokGo f rest2
  | f + 1, '&' :: '#' :: rest =>
    let ds := rest.takeWhile Char.isDigit
    let rest2 := rest.dropWhile Char.isDigit
    let rest3 := if rest2.head? == some ';' then rest2.drop 1 else rest2
    .charref (String.mk ds) :: tokGo f rest3
  | f + 1, '&' :: rest =>
    let nm := rest.takeWhile Char.isAlphanum
    if nm.isEmpty then .dataS "&" :: tokGo f rest
    else
      let rest2 := rest.dropWhile Char.isAlphanum
      let rest3 := if rest2.head? == some ';' then rest2.drop 1 else rest2
      .entity (String.mk nm) :: tokGo f rest3
  | f + 1, c :: rest =>
    let run := (c :: rest).takeWhile (fun x => x != '<' && x != '&')
    let rest2 := (c :: rest).dropWhile (fun x => x != '<' && x != '&')
    .dataS (String.mk run) :: tokGo f rest2

/-- Tokenize a whole input string. -/
def tokenizeHtml (s : String) : List Sax := tokGo (s.toList.length + 1) s.toList

/-! ### Post-read fixups and flattening -/

/-- The per-node fixup of process_dom_read (lines 372-384). -/
def readFixNode (a : Arena) (i : Nat) : Arena :=
  match (a.get i).content with
  | .namedN s =>
    let aOl :=
      if s == "ol" then
        match a.prevSibling i with
        | some _ =>
          match (a.get i).parent with
          | some p =>
            let (ar, nid) := a.newNode (.textN "\n")
            ar.insertBefore p i nid
          | none => a
        | none => a
      else a
    if pyStartsWith s "li" then
      let lastIsOl :=
        match aOl.lastChild i with
        | some c =>
          match (aOl.get c).content with
          | .namedN t => t == "ol"
          | _ => false
        | none => false
      if lastIsOl then aOl
      else
        let (ar, nid) := aOl.newNode (.textN "\n")
        ar.appendChild i nid
    else aOl
  | _ => a

/-- process_dom_read (lines 369-388): preorder walk over a worklist; an "ol"
with a previous sibling gets a newline text node inserted before it, and each
list item gets an implied trailing newline unless its last child is itself an
"ol".  Each node's children are snapshot after its own fixup. -/
def walkReadGo : Nat → Arena → List Nat → Arena
  | 0, a, _ => a
  | _, a, [] => a
  | f + 1, a, i :: rest =>
    let a1 := readFixNode a i
    walkReadGo f a1 ((a1.get i).children ++ rest)

/-- Run the post-read fixups from the root. -/
def walkRead (fuel : Nat) (a : Arena) (i : Nat) : Arena := walkReadGo fuel a [i]

/-- Modelled from the spec: get_contents (textbuffer_tools.py, not in src/)
"flattens a tree back into a content stream": a depth-first walk yielding text,
anchor, begin/end and beginstr/endstr events for the respective node kinds. -/
def flattenDom (fuel : Nat) (a : Arena) (i : Nat) : List Item :=
  match fuel with
  | 0 => []
  | f + 1 =>
    let inner := (a.get i).children.foldr (fun c acc => flattenDom f a c ++ acc) []
    match (a.get i).content with
    | .root => inner
    | .textN s => [.text s]
    | .anchorN an => [.anchor an]
    | .namedN s => [.beginstr s] ++ inner ++ [.endstr s]
    | .tagN t => [.begin t] ++ inner ++ [.endt t]
    | .liN _ => [.begin .li] ++ inner ++ [.endt .li]

mutual

/-- Modelled from the spec: in the canonical content stream a run of text is
one text event (the end-to-end example of §8.6 shows the item text and its
implied trailing newline as a single event), so adjacent text events produced
by adjacent text nodes are merged. -/
def mergeTexts : List Item → List Item
  | [] => []
  | .text s :: rest => mergeTextsGo s rest
  | it :: rest => it :: mergeTexts rest

/-- Accumulate a run of adjacent text events into one. -/
def mergeTextsGo (cur : String) : List Item → List Item
  | [] => [.text cur]
  | .text t :: rest => mergeTextsGo (cur ++ t) rest
  | it :: rest => .text cur :: it :: mergeTexts rest

end

/-- The value a read() call hands back: the post-read fixups applied to the
(possibly partial) tree, flattened and un-nested.  The un-nesting generator is
only forced when the caller consumes the stream, hence the inner Except. -/
def readPost (st : RState) : Except PyErr (List Item) :=
  let a2 := walkRead (2 * st.arena.nodes.length + 2) st.arena st.rootId
  unnest_indent_tags (mergeTexts (flattenDom (a2.nodes.length + 1) a2 st.rootId))

/-- read (lines 345-366): feed the input to the parser; on a raised error
re-raise unless ignore_errors, else continue with the partially built tree;
then apply the post-read fixups and return the un-nested content stream. -/
def read (input : String) (partialFlag ignoreErrors : Bool) :
    Except PyErr (Except PyErr (List Item)) :=
  let toks := tokenizeHtml input
  let (st, errOpt) := runReader (initReader partialFlag) toks
  match errOpt with
  | some e => if !ignoreErrors then .error e else .ok (readPost st)
  | none => .ok (readPost st)

/-! ### Writing HTML (HtmlBuffer.write and helpers, lines 664-947) -/

/-- The stability predicate passed to normalize_tags by write (lines 672-673):
only indent and paragraph tags are stable. -/
def isStableTag : Tag → Bool
  | .indent _ _ => true
  | .par _ => true
  | _ => false

/-- Modelled from the spec: normalize_tags (textbuffer_tools.py, not in src/)
"collapses redundant re-opens of structurally-equivalent tags" for the stable
tag kinds: an end immediately followed by a begin of the same stable tag is
dropped; all other events are left exactly as authored. -/
def normalize_tags : List Item → List Item
  | [] => []
  | .endt t :: .begin t2 :: rest2 =>
    if t == t2 && isStableTag t then normalize_tags rest2
    else .endt t :: .begin t2 :: normalize_tags rest2
  | it :: rest => it :: normalize_tags rest

/-- Modelled from the spec: TextBufferDom(contents) (textbuffer_tools.py, not
in src/) materializes a content stream into the tree: begin events open a child
element and descend, end events ascend, text and anchors append leaves. -/
def buildStep (acc : Arena × Nat × List Nat) (it : Item) : Arena × Nat × List Nat :=
  let (a, cur, stk) := acc
  match it with
  | .text s =>
    let (a1, nid) := a.newNode (.textN s)
    (a1.appendChild cur nid, cur, stk)
  | .anchor an =>
    let (a1, nid) := a.newNode (.anchorN an)
    (a1.appendChild cur nid, cur, stk)
  | .begin t =>
    let (a1, nid) := a.newNode (.tagN t)
    (a1.appendChild cur nid, nid, cur :: stk)
  | .beginstr s =>
    let (a1, nid) := a.newNode (.namedN s)
    (a1.appendChild cur nid, nid, cur :: stk)
  | .endt _ =>
    match stk with
    | [] => (a, cur, stk)
    | p :: rest => (a, p, rest)
  | .endstr _ =>
    match stk with
    | [] => (a, cur, stk)
    | p :: rest => (a, p, rest)

/-- Build the document tree of a content stream; node 0 is the root. -/
def buildDom (items : List Item) : Arena × Nat :=
  let res := items.foldl buildStep (⟨[defaultNode]⟩, 0, [])
  (res.1, 0)

/-- Pass 1 of prepare_dom_write (lines 689-733), as a preorder worklist walk:
inside an indent a paragraph element becomes a list item of the paragraph's
kind (children moved, the paragraph's own subtree is not revisited); outside an
indent the paragraph is spliced away; an indent element met inside an indent is
wrapped in a synthetic "none" list item, and its children are walked with the
flag set. -/
def prep1Go : Nat → Arena → List (Nat × Bool) → Arena
  | 0, a, _ => a
  | _, a, [] => a
  | f + 1, a, (i, withinIndent) :: rest =>
    match (a.get i).content with
    | .tagN (.par kind) =>
      if withinIndent then
        let (a1, nid) := a.newNode (.liN kind)
        let cs := (a1.get i).children
        let a2 := cs.foldl (fun acc c => (acc.removeNode c).appendChild nid c) a1
        prep1Go f (a2.replaceInParent i nid) rest
      else
        match (a.get i).parent with
        | none => prep1Go f a rest
        | some p =>
          let cs := (a.get i).children
          let a2 := cs.foldl (fun acc c => (acc.removeNode c).insertBefore p i c) a
          prep1Go f (a2.removeNode i) rest
    | .tagN (.indent _ _) =>
      let a1 :=
        if withinIndent then
          let (ax, nid) := a.newNode (.liN "none")
          let ax2 := ax.replaceInParent i nid
          ax2.appendChild nid i
        else a
      prep1Go f a1 (((a1.get i).children).map (fun c => (c, true)) ++ rest)
    | _ =>
      prep1Go f a (((a.get i).children).map (fun c => (c, withinIndent)) ++ rest)

/-- Run pass 1 from the root (walk(dom, False, "none")). -/
def prep1 (fuel : Nat) (a : Arena) (i : Nat) (withinIndent : Bool) : Arena :=
  prep1Go fuel a [(i, withinIndent)]

/-- Does the last recorded leaf exist and end in a newline text? -/
def llEndsNl (a : Arena) (ll : Option Nat) : Bool :=
  match ll with
  | some id =>
    match (a.get id).content with
    | .textN s => s.toList.getLast? == some '\n'
    | _ => false
  | none => false

/-- Delete the trailing newline of the recorded leaf. -/
def stripLastNl (a : Arena) (ll : Option Nat) : Arena :=
  match ll with
  | some id =>
    match (a.get id).content with
    | .textN s => a.setNode id { a.get id with content := .textN (String.mk s.toList.dropLast) }
    | _ => a
  | none => a

/-- The rightmost-descendant search of the list-item rule (lines 771-778):
descend along last children, stopping at a leaf; a nested indent element keeps
its own newline, so meeting one abandons the search. -/
def liRightDesc (fuel : Nat) (a : Arena) (c : Option Nat) : Option Nat :=
  match fuel with
  | 0 => c
  | f + 1 =>
    match c with
    | none => none
    | some id =>
      if a.isLeaf id then some id
      else
        match (a.get id).content with
        | .tagN (.indent _ _) => none
        | _ => liRightDesc f a ((a.get id).children.getLast?)

/-- Worklist entries for pass 2: a node visit, or the empty-element check run
after a node's children were walked. -/
inductive P2Task where
  | visit (i : Nat)
  | post (i : Nat)
deriving DecidableEq, Repr

/-- Pass 2 of prepare_dom_write (lines 744-808): a single preorder walk
tracking the last visited non-tag leaf.  Bullet elements are removed with
their contents; a horizontal rule or an indent deletes the trailing newline of
the preceding leaf; a list item deletes the trailing newline of its rightmost
text descendant; a text leaf right after a horizontal rule loses a leading
newline; tag elements left childless are removed. -/
def prep2Go : Nat → Arena × Option Nat → List P2Task → Arena × Option Nat
  | 0, acc, _ => acc
  | _, acc, [] => acc
  | f + 1, (a0, ll), task :: rest =>
    match task with
    | .post i =>
      let isTagDom :=
        match (a0.get i).content with
        | .tagN _ => true
        | .liN _ => true
        | _ => false
      let a1 := if isTagDom && a0.isLeaf i then a0.removeNode i else a0
      prep2Go f (a1, ll) rest
    | .visit i =>
      match (a0.get i).content with
      | .tagN .bullet => prep2Go f (a0.removeNode i, ll) rest
      | _ =>
        let isHr :=
          match (a0.get i).content with
          | .anchorN .hrule => true
          | _ => false
        let a1 := if isHr && llEndsNl a0 ll then stripLastNl a0 ll else a0
        let isIndent :=
          match (a1.get i).content with
          | .tagN (.indent _ _) => true
          | _ => false
        let a2 := if isIndent && llEndsNl a1 ll then stripLastNl a1 ll else a1
        let isLi :=
          match (a2.get i).content with
          | .liN _ => true
          | _ => false
        let a3 :=
          if isLi then
            match liRightDesc (a2.nodes.length + 1) a2 (a2.lastChild i) with
            | some cid =>
              match (a2.get cid).content with
              | .textN s =>
                if s.toList.getLast? == some '\n' then
                  a2.setNode cid { a2.get cid with content := .textN (String.mk s.toList.dropLast) }
                else a2
              | _ => a2
            | none => a2
          else a2
        let isTagDom :=
          match (a3.get i).content with
          | .tagN _ => true
          | .liN _ => true
          | _ => false
        if a3.isLeaf i then
          let llWasHr :=
            match ll with
            | some lid =>
              match (a3.get lid).content with
              | .anchorN .hrule => true
              | _ => false
            | none => false
          let a4 :=
            match (a3.get i).content with
            | .textN s =>
              if llWasHr && listStartsWith ['\n'] s.toList then
                a3.setNode i { a3.get i with content := .textN (String.mk (s.toList.drop 1)) }
              else a3
            | _ => a3
          let ll2 := if isTagDom then ll else some i
          let a5 := if isTagDom then a4.removeNode i else a4
          prep2Go f (a5, ll2) rest
        else
          let cs := (a3.get i).children
          prep2Go f (a3, ll) (cs.map P2Task.visit ++ [P2Task.post i] ++ rest)

/-- Run pass 2 from a node (walk(dom)). -/
def prep2 (fuel : Nat) (acc : Arena × Option Nat) (i : Nat) : Arena × Option Nat :=
  prep2Go fuel acc [P2Task.visit i]

/-- Replace every occurrence of a non-empty pattern, scanning left to right
without overlap (Python str.replace); the fuel only needs to cover the input
length. -/
def replaceGo (pat rep : List Char) : Nat → List Char → List Char
  | _, [] => []
  | 0, l => l
  | f + 1, c :: cs =>
    if listStartsWith pat (c :: cs) && !pat.isEmpty then
      rep ++ replaceGo pat rep f ((c :: cs).drop pat.length)
    else c :: replaceGo pat rep f cs

/-- Python str.replace on char lists. -/
def replaceList (pat rep l : List Char) : List Char :=
  replaceGo pat rep l.length l

/-- write_text (lines 830-840): escape ampersand, angle brackets, tab, double
space and newline, in that order. -/
def write_text_escape (s : String) : String :=
  let t0 := s.toList
  let t1 := replaceList ['&'] ("&amp;".toList) t0
  let t2 := replaceList ['>'] ("&gt;".toList) t1
  let t3 := replaceList ['<'] ("&lt;".toList) t2
  let t4 := replaceList ['\t'] ("&#09;".toList) t3
  let t5 := replaceList [' ', ' '] (" &nbsp;".toList) t4
  let t6 := replaceList ['\n'] ("<br/>\n".toList) t5
  String.mk t6

/-- write_anchor (lines 842-865): images with optional width/height, or a
horizontal rule. -/
def write_anchor (a : Anchor) : String :=
  match a with
  | .image fn w h =>
    let ws := match w with
      | some x => " width=\"" ++ toString x ++ "\""
      | none => ""
    let hs := match h with
      | some x => " height=\"" ++ toString x ++ "\""
      | none => ""
    "<img src=\"" ++ fn ++ "\"" ++ ws ++ hs ++ " />"
  | .hrule => "<hr/>"

/-- Modelled from the spec: IGNORE_TAGS is imported from richtextbuffer.py
(not in src/); the spec's tag-to-HTML table lists no ignored tag kinds, so the
modelled set is empty. -/
def IGNORE_TAGS : List String := []

/-- The name property of a tag (get_property("name")): modifier and justify
tags are named by their value, parametrized tags carry their parameters, the
paragraph tag is named "p" and the plain list-item tag "li". -/
def tagName : Tag → String
  | .mod n => n
  | .size n => "size " ++ toString n
  | .justify n => n
  | .family f => "family " ++ f
  | .fgcolor c => "fg_color " ++ c
  | .bgcolor c => "bg_color " ++ c
  | .indent lvl pt => "indent " ++ toString lvl ++ " " ++ pt
  | .bullet => "bullet"
  | .par _ => "p"
  | .li => "li"

/-- write_tag_begin (lines 868-917): dispatch on ignored names, the modifier
map, then the tag classes; list items carry their list-style-type; an
unrecognized tag is an HtmlError. -/
def write_tag_begin (n : Node) : Except PyErr String :=
  match n.content with
  | .liN k =>
    if k == "bullet" then .ok "<li style=\"list-style-type: disc\">"
    else .ok "<li style=\"list-style-type: none\">"
  | .tagN t =>
    let nm := tagName t
    if IGNORE_TAGS.contains nm then .ok ""
    else
      match buffer_tag2html nm with
      | some h => .ok ("<" ++ h ++ ">")
      | none =>
        match t with
        | .size sz => .ok ("<span style=\"font-size: " ++ toString sz ++ "pt\">")
        | .justify _ =>
          .ok ("<div style=\"text-align: " ++ (if nm == "fill" then "justify" else nm) ++ "\">")
        | .family f => .ok ("<span style=\"font-family: " ++ f ++ "\">")
        | .fgcolor c => (tagcolor_to_html c).map (fun h => "<span style=\"color: " ++ h ++ "\">")
        | .bgcolor c =>
          (tagcolor_to_html c).map (fun h => "<span style=\"background-color: " ++ h ++ "\">")
        | .indent _ _ => .ok "<ol>"
        | _ => .error (.htmlError ("unknown tag '" ++ nm ++ "'"))
  | _ => .error (.htmlError "unknown tag ''")

/-- write_tag_end (lines 920-942): the modifier map, justification names close
a div, indents close the list with a newline, list items likewise, bullets
write nothing, anything else closes a span. -/
def write_tag_end (n : Node) : String :=
  match n.content with
  | .liN _ => "</li>\n"
  | .tagN t =>
    let nm := tagName t
    match buffer_tag2html nm with
    | some h => "</" ++ h ++ ">"
    | none =>
      if justifySet.contains nm then "</div>"
      else
        match t with
        | .indent _ _ => "</ol>\n"
        | .bullet => ""
        | _ => "</span>"
  | _ => ""

/-- Worklist entries for the emitter: a node, or a pending close tag. -/
inductive WTask where
  | node (i : Nat)
  | closeTag (i : Nat)
deriving DecidableEq, Repr

/-- write_dom (lines 812-827): emit each child — text escaped, elements as an
open tag, their children, and a close tag, anchors via write_anchor. -/
def writeDomList (a : Arena) : Nat → List WTask → Except PyErr String
  | _, [] => .ok ""
  | 0, _ => .ok ""
  | f + 1, t :: rest =>
    match t with
    | .closeTag i =>
      (writeDomList a f rest).map (fun out => write_tag_end (a.get i) ++ out)
    | .node i =>
      match (a.get i).content with
      | .textN s => (writeDomList a f rest).map (fun out => write_text_escape s ++ out)
      | .anchorN an => (writeDomList a f rest).map (fun out => write_anchor an ++ out)
      | .tagN _ => do
        let o ← write_tag_begin (a.get i)
        let out ← writeDomList a f
          (((a.get i).children).map WTask.node ++ [WTask.closeTag i] ++ rest)
        .ok (o ++ out)
      | .liN _ => do
        let o ← write_tag_begin (a.get i)
        let out ← writeDomList a f
          (((a.get i).children).map WTask.node ++ [WTask.closeTag i] ++ rest)
        .ok (o ++ out)
      | _ => .error (.htmlError "unknown dom")

/-- Emit a child list of the root. -/
def writeDomGo (fuel : Nat) (a : Arena) (ids : List Nat) : Except PyErr String :=
  writeDomList a fuel (ids.map WTask.node)

/-- XHTML_HEADER (lines 45-47). -/
def XHTML_HEADER : String :=
  "<!DOCTYPE html PUBLIC \"-//W3C//DTD XHTML 1.0 Transitional//EN\" \"http://www.w3.org/TR/xhtml1/DTD/xhtml1-transitional.dtd\">\n<html xmlns=\"http://www.w3.org/1999/xhtml\">\n<body>"

/-- XHTML_FOOTER (line 48). -/
def XHTML_FOOTER : String := "</body></html>"

/-- write (lines 664-680): normalize the nested, paragraph-wrapped stream,
build the tree, run the two rewrite passes and emit, wrapping in the XHTML
header/footer unless partial. -/
def write (buffer_content : List Item) (partialFlag : Bool) : Except PyErr String := do
  let c1 ← find_paragraphs buffer_content
  let c2 ← nest_indent_tags c1
  let c3 := normalize_tags c2
  let dom := buildDom c3
  let a := dom.1
  let a1 := prep1 (2 * a.nodes.length + 2) a dom.2 false
  let pres := prep2 (a1.nodes.length + 1) (a1, none) dom.2
  let a2 := pres.1
  let body ← writeDomGo (2 * a2.nodes.length + 2) a2 ((a2.get dom.2).children)
  .ok ((if partialFlag then "" else XHTML_HEADER) ++ body ++
       (if partialFlag then "" else XHTML_FOOTER))

/-! ### Specification-side definitions used to state the claims -/

/-- The end-to-end example input stream of §8.6. -/
def c1Input : List Item :=
  [.begin (.indent 1 "bullet"), .text "item one\n", .endt (.indent 1 "bullet")]

/-- The exact serialization the spec's example requires. -/
def c1Html : String := "<ol><li style=\"list-style-type: disc\">item one</li>\n</ol>\n"

/-- The exact event sequence the spec's example requires on read-back. -/
def c1ReadEvents : List Item :=
  [.beginstr "indent 1 bullet", .beginstr "bullet", .text BULLET_STR, .endstr "bullet",
   .text "item one\n", .endstr "indent 1 bullet"]

/-- An item that is neither a typed indent begin nor a typed indent end. -/
def plainItem : Item → Bool
  | .begin (.indent _ _) => false
  | .endt (.indent _ _) => false
  | _ => true

/-- Valid flat-indent streams (§4.1): indent begin/end pairs appear as
siblings wrapping indent-free content, never nested, freely interleaved with
other events. -/
inductive ValidFlat : List Item → Prop where
  | nil : ValidFlat []
  | plain (it : Item) (rest : List Item) :
      plainItem it = true → ValidFlat rest → ValidFlat (it :: rest)
  | block (n : Nat) (pt : String) (body rest : List Item) (m : Nat) (pt2 : String) :
      (∀ it ∈ body, plainItem it = true) → ValidFlat rest →
      ValidFlat (.begin (.indent n pt) :: body ++ .endt (.indent m pt2) :: rest)

/-- Proper-nesting checker for a stream's typed indent events: from depth d,
each indent begin must open level d+1 and each indent end must close level d;
other events are ignored.  Returns the final depth, or none on a violation. -/
def checkRun (d : Nat) : List Item → Option Nat
  | [] => some d
  | .begin (.indent k _) :: rest => if k == d + 1 then checkRun (d + 1) rest else none
  | .endt (.indent k _) :: rest =>
    if k == d && !(k == 0) then checkRun (k - 1) rest else none
  | _ :: rest => checkRun d rest

/-- Number of typed indent begin events. -/
def countBeginIndent (l : List Item) : Nat :=
  l.countP (fun it => match it with | .begin (.indent _ _) => true | _ => false)

/-- Number of typed indent end events. -/
def countEndIndent (l : List Item) : Nat :=
  l.countP (fun it => match it with | .endt (.indent _ _) => true | _ => false)

/-- A stream with no parser-level (beginstr/endstr) events. -/
def noStrEvents (l : List Item) : Bool :=
  l.all (fun it => match it with | .beginstr _ => false | .endstr _ => false | _ => true)

/-- The string carried by the first text event, if any. -/
def firstTextEvent : List Item → Option String
  | [] => none
  | .text s :: _ => some s
  | _ :: rest => firstTextEvent rest

/-- Every indent tag in the stream declares a paragraph type the pars
dictionary knows. -/
def goodIndentTypes (l : List Item) : Bool :=
  l.all (fun it =>
    match it with
    | .begin (.indent _ pt) => pt == "none" || pt == "bullet"
    | _ => true)

/-- The paragraph type declared by the most recently begun indent tag of a
stream, "none" when there is none. -/
def lastIndentType (items : List Item) : String :=
  items.foldl (fun acc it =>
    match it with
    | .begin (.indent _ pt) => pt
    | _ => acc) "none"

/-- The paragraph-wrapping transform with the paragraph type recomputed, at
every text or anchor event, as the type of the most recently begun indent tag
among the already-consumed items — the specification-side rendering of "the
active paragraph's kind follows the most recently seen Indent tag's declared
item type". -/
def fpGoSpec (within : Bool) (others : List Item) (seen : List Item) (stk : List Tag)
    (jb : Option Nat) : List Item → Except PyErr (List Item)
  | [] => do
    let closeEv ←
      if within then
        match stk with
        | [] => .error .indexError
        | top :: _ => pure [Item.endt top]
      else pure []
    .ok (closeEv ++ others)
  | it :: rest =>
    match it with
    | .text s => do
      let (ev, w2, stk2, jb2) ← fpText s (lastIndentType seen) within stk jb
      let out ← fpGoSpec w2 [] (seen ++ [it]) stk2 jb2 rest
      .ok (others ++ ev ++ out)
    | .anchor _ => do
      let (openEv, w1, stk1) ← fpOpen (lastIndentType seen) within stk
      let out ← fpGoSpec w1 [] (seen ++ [it]) stk1 jb rest
      .ok (others ++ openEv ++ [it] ++ out)
    | _ => fpGoSpec within (others ++ [it]) (seen ++ [it]) stk jb rest

/-- The specification-side paragraph wrapper. -/
def find_paragraphs_spec (contents : List Item) : Except PyErr (List Item) :=
  fpGoSpec false [] [] [] none contents

mutual

/-- Decompose a char list into its maximal runs, each tagged with whether it
is a newline/space run — the specification's reading of "maximal run". -/
def specRuns : List Char → List (Bool × List Char)
  | [] => []
  | c :: cs => if isNlSp c then specRunWs [c] cs else specRunTx [c] cs

/-- Accumulate a whitespace run. -/
def specRunWs (acc : List Char) : List Char → List (Bool × List Char)
  | [] => [(true, acc.reverse)]
  | c :: cs =>
    if isNlSp c then specRunWs (c :: acc) cs
    else (true, acc.reverse) :: specRunTx [c] cs

/-- Accumulate a non-whitespace run. -/
def specRunTx (acc : List Char) : List Char → List (Bool × List Char)
  | [] => [(false, acc.reverse)]
  | c :: cs =>
    if isNlSp c then (false, acc.reverse) :: specRunWs [c] cs
    else specRunTx (c :: acc) cs

end

/-- Render a run decomposition: each newline/space run becomes one space,
other runs are kept. -/
def runFlat (rs : List (Bool × List Char)) : List Char :=
  (rs.map (fun r => if r.1 then [' '] else r.2)).flatten

/-- Specification-side collapse: every maximal newline/space run becomes one
space, other runs are kept. -/
def specCollapseList (l : List Char) : List Char := runFlat (specRuns l)

/-- The amended leading-strip rule: after a br, a leading newline/space run is
removed entirely only when it starts with a newline. -/
def specStrip (newline : Bool) (l : List Char) : List Char :=
  if newline && (l.head? == some '\n') then l.dropWhile isNlSp else l

/-- A statement that reaches the text-align branch with a value outside the
accepted set: it strips to something starting with "text-align", has a ":"
(so index [1] exists), and its stripped value is not an accepted
justification. -/
def isBadAlign (s : String) : Bool :=
  let st := pyStrip s
  pyStartsWith st "text-align" &&
    (match (pySplit st ':').drop 1 with
     | [] => false
     | v :: _ => !(justifySet.contains (pyStrip v)))

/-- A hexadecimal digit (by code point: 0-9, a-f, A-F). -/
def isHexDigit (c : Char) : Bool :=
  (48 ≤ c.toNat && c.toNat ≤ 57) || (97 ≤ c.toNat && c.toNat ≤ 102) ||
  (65 ≤ c.toNat && c.toNat ≤ 70)

/-- An event that the un-nesting machine's state ignores: anything that is not
a parser-level "ol" or "li..." begin/end. -/
def nonListItem : Item → Bool
  | .beginstr p => !(p == "ol" || pyStartsWith p "li")
  | .endstr p => !(p == "ol" || pyStartsWith p "li")
  | _ => true

mutual

/-- Well-formed nested-list event streams at forest level: plain events and
complete lists (an "ol" begin, a sequence of items, an "ol" end). -/
inductive WFForest : List Item → Prop where
  | nil : WFForest []
  | plain (it : Item) (rest : List Item) :
      nonListItem it = true → WFForest rest → WFForest (it :: rest)
  | list (body rest : List Item) :
      WFItems body → WFForest rest →
      WFForest (.beginstr "ol" :: body ++ .endstr "ol" :: rest)

/-- Well-formed item sequences inside a list: each item is an "li ..." begin,
well-formed content, and an "li ..." end. -/
inductive WFItems : List Item → Prop where
  | nil : WFItems []
  | item (t t2 : String) (content rest : List Item) :
      WFForest content → WFItems rest →
      WFItems (.beginstr ("li " ++ t) :: content ++ .endstr ("li " ++ t2) :: rest)

end

/-- The state transition of unnest_indent_tags for one event: its integer
indent level and its stack of open list-item tag strings (the same updates as
unnestGo, without the emitted events). -/
def stepUnnest (st : Int × List String) (it : Item) : Except PyErr (Int × List String) :=
  let indentLvl := st.1
  let liStack := st.2
  match it with
  | .beginstr p =>
    if p == "ol" then .ok (indentLvl + 1, liStack)
    else if pyStartsWith p "li" then
      let parType := String.mk (p.toList.drop 3)
      let tagstr := "indent " ++ toString indentLvl ++ " " ++ parType
      .ok (indentLvl, tagstr :: liStack)
    else .ok st
  | .endstr p =>
    if p == "ol" then .ok (indentLvl - 1, liStack)
    else if pyStartsWith p "li" then
      match liStack with
      | [] => .error .indexError
      | _ :: rest => .ok (indentLvl, rest)
    else .ok st
  | _ => .ok st

/-- Does a tag construct an indent? -/
def isIndentTagB : Tag → Bool
  | .indent _ _ => true
  | _ => false

/-- Is an event a typed indent begin? -/
def isBeginIndent : Item → Bool
  | .begin (.indent _ _) => true
  | _ => false

/-- Run a step function over a stream recording every state reached before
the end (the trace) together with the final state. -/
def runTrace {σ : Type} (step : σ → Item → Except PyErr σ) (st : σ) :
    List Item → Except PyErr (List σ × σ)
  | [] => .ok ([st], st)
  | it :: rest => do
    let st2 ← step st it
    let (tr, fin) ← runTrace step st2 rest
    .ok (st :: tr, fin)

/-- One step of the proper-nesting checker: the depth update checkRun applies
for a single event, or none on a violation. -/
def checkStep (d : Nat) : Item → Option Nat
  | .begin (.indent k _) => if k == d + 1 then some (d + 1) else none
  | .endt (.indent k _) => if k == d && !(k == 0) then some (k - 1) else none
  | _ => some d

/-! ## Theorems -/

theorem specRun_joint : ∀ (n : Nat) (cs : List Char), cs.length ≤ n → ∀ acc,
    runFlat (specRunWs acc cs) = ' ' :: pySkipWs cs ∧
    runFlat (specRunTx acc cs) = acc.reverse ++ pyCollapseWs cs := by
  intro n
  induction n with
  | zero =>
    intro cs h acc
    have hnil : cs = [] := List.eq_nil_of_length_eq_zero (Nat.le_zero.mp h)
    subst hnil
    simp [specRunWs, specRunTx, pySkipWs, pyCollapseWs, runFlat]
  | succ n ih =>
    intro cs h acc
    cases cs with
    | nil => simp [specRunWs, specRunTx, pySkipWs, pyCollapseWs, runFlat]
    | cons c cs2 =>
      have h2 : cs2.length ≤ n := by
        simp only [List.length_cons] at h
        omega
      by_cases hc : isNlSp c = true
      · refine ⟨?_, ?_⟩
        · have hA := (ih cs2 h2 (c :: acc)).1
          simp [specRunWs, hc, pySkipWs, hA]
        · have hA := (ih cs2 h2 [c]).1
          simp [specRunTx, hc, pyCollapseWs, runFlat] at hA ⊢
          simp [hA]
      · have hc2 : isNlSp c = false := by simpa using hc
        refine ⟨?_, ?_⟩
        · have hB := (ih cs2 h2 [c]).2
          simp [specRunWs, hc2, pySkipWs, runFlat] at hB ⊢
          simp [hB]
        · have hB := (ih cs2 h2 (c :: acc)).2
          simp [specRunTx, hc2, pyCollapseWs, hB]

theorem collapse_eq_spec (l : List Char) : pyCollapseWs l = specCollapseList l := by
  cases l with
  | nil => simp [pyCollapseWs, specCollapseList, specRuns, runFlat]
  | cons c cs =>
    by_cases hc : isNlSp c = true
    · have hA := (specRun_joint cs.length cs (Nat.le_refl _) [c]).1
      simp [pyCollapseWs, hc, specCollapseList, specRuns, hA]
    · have hc2 : isNlSp c = false := by simpa using hc
      have hB := (specRun_joint cs.length cs (Nat.le_refl _) [c]).2
      simp [pyCollapseWs, hc2, specCollapseList, specRuns, hB]

theorem stripLead_eq_spec (newline : Bool) (l : List Char) :
    (if newline then pyStripLead l else l) = specStrip newline l := by
  cases newline with
  | false => simp [specStrip]
  | true =>
    cases l with
    | nil => simp [pyStripLead, specStrip]
    | cons c rest =>
      by_cases hc : c = '\n'
      · subst hc
        simp [pyStripLead, specStrip, List.dropWhile, isNlSp]
      · simp [pyStripLead, specStrip, hc]

/-- C3 (corrected, counterexample): the claim says any leading newline/space
run after a br is stripped entirely "whatever character it starts with"; but
on data starting with a space the code's leading-strip regex does not match,
and the run collapses to a single space instead of disappearing. -/
theorem claim_c3_counterexample :
    handleDataTransform true " a" = " a" ∧
    String.mk (specCollapseList ((" a".toList).dropWhile isNlSp)) = "a" ∧
    handleDataTransform true " a" ≠
      String.mk (specCollapseList ((" a".toList).dropWhile isNlSp)) := by
  refine ⟨by decide, by decide, by decide⟩

/-- C3 (corrected, amended): in handle_data every maximal newline/space run
collapses to a single space, except that with the just-saw-br flag a leading
run is stripped entirely only when it starts with a newline; a leading run
starting with a space collapses like any other run. -/
theorem claim_c3_amended (newline : Bool) (s : String) :
    handleDataTransform newline s =
      String.mk (specCollapseList (specStrip newline s.toList)) := by
  unfold handleDataTransform
  rw [stripLead_eq_spec, collapse_eq_spec]

/-- C1 (confirmed): the write path serializes the example stream, in partial
mode, to exactly the required HTML, and reading that HTML back (partial mode)
yields exactly the required event sequence. -/
theorem claim_c1_end_to_end :
    write c1Input true = .ok c1Html ∧
    read c1Html true false = .ok (.ok c1ReadEvents) := by
  refine ⟨by decide, by decide⟩

/-- C9 (confirmed): when parsing raises and ignore_errors is false, read
re-raises that error to the caller; with ignore_errors set, read never raises
and returns the content stream obtained by applying the post-read fixups to
the partially constructed tree. -/
theorem claim_c9_read_errors :
    (∀ (input : String) (pm : Bool) (e : PyErr),
        (runReader (initReader pm) (tokenizeHtml input)).2 = some e →
        read input pm false = .error e) ∧
    (∀ (input : String) (pm : Bool),
        read input pm true = .ok (readPost (runReader (initReader pm) (tokenizeHtml input)).1)) := by
  constructor
  · intro input pm e h
    unfold read
    dsimp only
    rcases hr : runReader (initReader pm) (tokenizeHtml input) with ⟨st, errOpt⟩
    rw [hr] at h
    simp only at h
    simp [h]
  · intro input pm
    unfold read
    dsimp only
    rcases hr : runReader (initReader pm) (tokenizeHtml input) with ⟨st, errOpt⟩
    cases errOpt <;> simp

/-- C9 witness: a style attribute with an unknown justification raises the
HtmlError through read when errors are not ignored; with errors ignored, read
returns the fixed-up stream of the partially constructed tree, which retains
the element opened by the successfully parsed font-family declaration that
preceded the raising text-align declaration. -/
theorem claim_c9_read_errors_witness :
    read "<div style=\"text-align: bogus\">x</div>" true false =
      .error (.htmlError "unknown justification 'bogus'") ∧
    read "<body><span style=\"font-family: f; text-align: bogus\">x</span></body>"
        false true =
      .ok (readPost (runReader (initReader false)
        (tokenizeHtml
          "<body><span style=\"font-family: f; text-align: bogus\">x</span></body>")).1) ∧
    read "<body><span style=\"font-family: f; text-align: bogus\">x</span></body>"
        false true =
      .ok (.ok [.beginstr "family f", .endstr "family f"]) :=
  ⟨claim_c9_read_errors.1 "<div style=\"text-align: bogus\">x</div>" true
     (.htmlError "unknown justification 'bogus'") (by decide),
   claim_c9_read_errors.2
     "<body><span style=\"font-family: f; text-align: bogus\">x</span></body>" false,
   by decide⟩

theorem hex_not_ws {c : Char} (h : isHexDigit c = true) : isPyWs c = false := by
  by_contra hw
  have hw2 : isPyWs c = true := by simpa using hw
  simp only [isPyWs, Bool.or_eq_true, beq_iff_eq] at hw2
  rcases hw2 with ((((h1 | h1) | h1) | h1) | h1) | h1 <;> subst h1 <;>
    exact absurd h (by decide)

theorem hex_ne_colon {c : Char} (h : isHexDigit c = true) : (c == ':') = false := by
  by_contra hw
  have hw2 : c = ':' := by simpa using hw
  subst hw2
  exact absurd h (by decide)

theorem dropWhile_eq_self_of_head {p : Char → Bool} :
    ∀ (l : List Char), (∀ c, l.head? = some c → p c = false) → l.dropWhile p = l := by
  intro l h
  cases l with
  | nil => rfl
  | cons c cs =>
    have := h c rfl
    simp [List.dropWhile, this]

theorem pyStrip_eq_self (l : List Char)
    (h1 : ∀ c, l.head? = some c → isPyWs c = false)
    (h2 : ∀ c, l.getLast? = some c → isPyWs c = false) :
    pyStrip (String.mk l) = String.mk l := by
  unfold pyStrip
  have ht : (String.mk l).toList = l := rfl
  rw [ht, dropWhile_eq_self_of_head l h1, dropWhile_eq_self_of_head _ ?hrev,
      List.reverse_reverse]
  case hrev =>
    intro c hc
    rw [List.head?_reverse] at hc
    exact h2 c hc

theorem pyStrip_cons_space (l : List Char) :
    pyStrip (String.mk (' ' :: l)) = pyStrip (String.mk l) := by
  unfold pyStrip
  have ht : (String.mk (' ' :: l)).toList = ' ' :: l := rfl
  rw [ht]
  have : (' ' :: l).dropWhile isPyWs = l.dropWhile isPyWs := by
    simp [List.dropWhile, isPyWs]
  rw [this]
  rfl

theorem splitOn_no_sep {sep : Char} :
    ∀ (l : List Char), (∀ c ∈ l, (c == sep) = false) → splitOnCharList sep l = [l] := by
  intro l h
  induction l with
  | nil => rfl
  | cons c cs ih =>
    have hc := h c (by simp)
    have ihr := ih (fun x hx => h x (by simp [hx]))
    simp [splitOnCharList, hc, ihr]

theorem splitOn_one_sep (sep : Char) (pre sub : List Char)
    (hp : ∀ c ∈ pre, (c == sep) = false) (hs : ∀ c ∈ sub, (c == sep) = false) :
    splitOnCharList sep (pre ++ sep :: sub) = [pre, sub] := by
  induction pre with
  | nil =>
    have hsub := splitOn_no_sep sub hs
    simp [splitOnCharList, hsub]
  | cons c pre2 ih =>
    have hc := hp c (by simp)
    have ihr := ih (fun x hx => hp x (by simp [hx]))
    simp [splitOnCharList, hc, ihr]

theorem hex_string_strip (pre : List Char) (s : List Char) (hne : s ≠ [])
    (hh : ∀ c, (pre ++ s).head? = some c → isPyWs c = false)
    (hs : ∀ c ∈ s, isHexDigit c = true) :
    pyStrip (String.mk (pre ++ s)) = String.mk (pre ++ s) := by
  apply pyStrip_eq_self
  · exact hh
  · intro c hc
    rw [List.getLast?_append_of_ne_nil _ hne] at hc
    exact hex_not_ws (hs c (List.mem_of_getLast?_eq_some hc))

theorem colorTagstr_hex (kind : String) (s : List Char) (hne : s ≠ [])
    (hs : ∀ c ∈ s, isHexDigit c = true) :
    colorTagstr kind (String.mk (' ' :: '#' :: s)) =
      (if s.length == 3 then
        (match s with
         | [a, b, c] => some (kind ++ " " ++ String.mk ['#', a, a, b, b, c, c])
         | _ => none)
       else if s.length == 6 then some (kind ++ " " ++ String.mk ('#' :: s))
       else none) := by
  have hstrip : pyStrip (String.mk (' ' :: '#' :: s)) = String.mk ('#' :: s) := by
    rw [pyStrip_cons_space]
    exact hex_string_strip ['#'] s hne
      (by intro c hc; simp at hc; subst hc; decide) hs
  have hsw : pyStartsWith (String.mk ('#' :: s)) "#" = true := by
    simp [pyStartsWith, listStartsWith]
  unfold colorTagstr
  rw [hstrip]
  dsimp only
  rw [hsw]
  simp only [if_pos rfl]
  rcases s with _ | ⟨a, _ | ⟨b, _ | ⟨c, _ | ⟨d, _ | ⟨e, _ | ⟨f, rest⟩⟩⟩⟩⟩⟩
  · exact absurd rfl hne
  · simp [expandColor]
  · simp [expandColor]
  · simp [expandColor]
  · simp [expandColor]
  · simp [expandColor]
  · cases rest with
    | nil => simp [expandColor]
    | cons g rest2 =>
      cases rest2 with
      | nil => simp [expandColor]
      | cons h8 rest3 => simp [expandColor, Nat.succ_ne_self]

theorem hexColon_no_sep (s : List Char) (hs : ∀ c ∈ s, isHexDigit c = true) :
    ∀ c ∈ (' ' :: '#' :: s), (c == ':') = false := by
  intro c hc
  simp at hc
  rcases hc with hc | hc | hc
  · subst hc; decide
  · subst hc; decide
  · exact hex_ne_colon (hs c hc)

theorem styleStep_color_hex (s : List Char) (hne : s ≠ [])
    (hs : ∀ c ∈ s, isHexDigit c = true) :
    styleStep (String.mk ("color: #".toList ++ s)) =
      .ok (colorTagstr "fg_color" (String.mk (' ' :: '#' :: s))) := by
  have hstrip : pyStrip (String.mk ("color: #".toList ++ s)) =
      String.mk ("color: #".toList ++ s) := by
    apply hex_string_strip _ _ hne _ hs
    intro c hc
    simp at hc
    subst hc
    decide
  have hsplit : splitOnCharList ':' ("color: #".toList ++ s) =
      ["color".toList, ' ' :: '#' :: s] := by
    have h0 := splitOn_one_sep ':' "color".toList (' ' :: '#' :: s)
      (by decide) (hexColon_no_sep s hs)
    have heq : "color".toList ++ ':' :: ' ' :: '#' :: s = "color: #".toList ++ s := by
      simp
    rw [heq] at h0
    exact h0
  have h1 : pyStartsWith (String.mk ("color: #".toList ++ s)) "font-size" = false := by
    simp [pyStartsWith, listStartsWith]
  have h2 : pyStartsWith (String.mk ("color: #".toList ++ s)) "font-family" = false := by
    simp [pyStartsWith, listStartsWith]
  have h3 : pyStartsWith (String.mk ("color: #".toList ++ s)) "text-align" = false := by
    simp [pyStartsWith, listStartsWith]
  have h4 : pyStartsWith (String.mk ("color: #".toList ++ s)) "color" = true := by
    simp [pyStartsWith, listStartsWith]
  simp at hsplit
  unfold styleStep
  rw [hstrip]
  dsimp only
  rw [h1, h2, h3, h4]
  simp [pySplit, String.toList, hsplit]

theorem styleStep_bgcolor_hex (s : List Char) (hne : s ≠ [])
    (hs : ∀ c ∈ s, isHexDigit c = true) :
    styleStep (String.mk ("background-color: #".toList ++ s)) =
      .ok (colorTagstr "bg_color" (String.mk (' ' :: '#' :: s))) := by
  have hstrip : pyStrip (String.mk ("background-color: #".toList ++ s)) =
      String.mk ("background-color: #".toList ++ s) := by
    apply hex_string_strip _ _ hne _ hs
    intro c hc
    simp at hc
    subst hc
    decide
  have hsplit : splitOnCharList ':' ("background-color: #".toList ++ s) =
      ["background-color".toList, ' ' :: '#' :: s] := by
    have h0 := splitOn_one_sep ':' "background-color".toList (' ' :: '#' :: s)
      (by decide) (hexColon_no_sep s hs)
    have heq : "background-color".toList ++ ':' :: ' ' :: '#' :: s =
        "background-color: #".toList ++ s := by simp
    rw [heq] at h0
    exact h0
  have h1 : pyStartsWith (String.mk ("background-color: #".toList ++ s)) "font-size" = false := by
    simp [pyStartsWith, listStartsWith]
  have h2 : pyStartsWith (String.mk ("background-color: #".toList ++ s)) "font-family" = false := by
    simp [pyStartsWith, listStartsWith]
  have h3 : pyStartsWith (String.mk ("background-color: #".toList ++ s)) "text-align" = false := by
    simp [pyStartsWith, listStartsWith]
  have h4 : pyStartsWith (String.mk ("background-color: #".toList ++ s)) "color" = false := by
    simp [pyStartsWith, listStartsWith]
  have h5 : pyStartsWith (String.mk ("background-color: #".toList ++ s)) "background-color" = true := by
    simp [pyStartsWith, listStartsWith]
  simp at hsplit
  unfold styleStep
  rw [hstrip]
  dsimp only
  rw [h1, h2, h3, h4, h5]
  simp [pySplit, String.toList, hsplit]

/-- C6 (confirmed): a color or background-color declaration carrying a
4-character #RGB shorthand is expanded by the style parser to the 7-character
#RRGGBB form with each hex digit doubled; and the 7-character color that the
writer derives from the 13-character internal color via tagcolor_to_html
re-parses, through either declaration, to the bit-identical value. -/
theorem claim_c6_color_roundtrip :
    (∀ a b c : Char, isHexDigit a = true → isHexDigit b = true → isHexDigit c = true →
      styleStep (String.mk ("color: #".toList ++ [a, b, c])) =
        .ok (some ("fg_color" ++ " " ++ String.mk ['#', a, a, b, b, c, c])) ∧
      styleStep (String.mk ("background-color: #".toList ++ [a, b, c])) =
        .ok (some ("bg_color" ++ " " ++ String.mk ['#', a, a, b, b, c, c]))) ∧
    (∀ (c13 : String) (ds : List Char), c13.toList = '#' :: ds → ds.length = 12 →
      (∀ c ∈ ds, isHexDigit c = true) →
      ∃ h7 : String, tagcolor_to_html c13 = .ok h7 ∧ h7.toList.length = 7 ∧
        styleStep ("color: " ++ h7) = .ok (some ("fg_color" ++ " " ++ h7)) ∧
        styleStep ("background-color: " ++ h7) = .ok (some ("bg_color" ++ " " ++ h7))) := by
  constructor
  · intro a b c ha hb hc
    have hs : ∀ x ∈ [a, b, c], isHexDigit x = true := by
      intro x hx
      simp at hx
      rcases hx with hx | hx | hx <;> subst hx <;> assumption
    have hne : ([a, b, c] : List Char) ≠ [] := by simp
    constructor
    · rw [styleStep_color_hex [a, b, c] hne hs, colorTagstr_hex "fg_color" [a, b, c] hne hs]
      simp
    · rw [styleStep_bgcolor_hex [a, b, c] hne hs, colorTagstr_hex "bg_color" [a, b, c] hne hs]
      simp
  · intro c13 ds hdata hlen hhex
    rcases ds with _ | ⟨d1, _ | ⟨d2, _ | ⟨d3, _ | ⟨d4, _ | ⟨d5, _ | ⟨d6, _ | ⟨d7, _ | ⟨d8,
      _ | ⟨d9, _ | ⟨d10, _ | ⟨d11, _ | ⟨d12, rest⟩⟩⟩⟩⟩⟩⟩⟩⟩⟩⟩⟩ <;>
      simp only [List.length_cons, List.length_nil] at hlen
    · omega
    · omega
    · omega
    · omega
    · omega
    · omega
    · omega
    · omega
    · omega
    · omega
    · omega
    · omega
    · have hrest : rest = [] := by
        have := hlen
        rcases rest with _ | ⟨x, xs⟩
        · rfl
        · simp at this
      subst hrest
      refine ⟨String.mk ['#', d1, d2, d5, d6, d9, d10], ?_, by simp, ?_, ?_⟩
      · unfold tagcolor_to_html
        rw [hdata]
        simp
      · have hs6 : ∀ x ∈ [d1, d2, d5, d6, d9, d10], isHexDigit x = true := by
          intro x hx
          simp at hx
          rcases hx with hx | hx | hx | hx | hx | hx <;> subst hx <;>
            exact hhex _ (by simp)
        have hne6 : ([d1, d2, d5, d6, d9, d10] : List Char) ≠ [] := by simp
        have heqs : ("color: " ++ String.mk ['#', d1, d2, d5, d6, d9, d10]) =
            String.mk ("color: #".toList ++ [d1, d2, d5, d6, d9, d10]) := rfl
        rw [heqs, styleStep_color_hex _ hne6 hs6, colorTagstr_hex "fg_color" _ hne6 hs6]
        simp
      · have hs6 : ∀ x ∈ [d1, d2, d5, d6, d9, d10], isHexDigit x = true := by
          intro x hx
          simp at hx
          rcases hx with hx | hx | hx | hx | hx | hx <;> subst hx <;>
            exact hhex _ (by simp)
        have hne6 : ([d1, d2, d5, d6, d9, d10] : List Char) ≠ [] := by simp
        have heqs : ("background-color: " ++ String.mk ['#', d1, d2, d5, d6, d9, d10]) =
            String.mk ("background-color: #".toList ++ [d1, d2, d5, d6, d9, d10]) := rfl
        rw [heqs, styleStep_bgcolor_hex _ hne6 hs6, colorTagstr_hex "bg_color" _ hne6 hs6]
        simp

theorem except_map_ok {α β : Type} (f : α → β) (x : Except PyErr α) (y : β) :
    x.map f = .ok y ↔ ∃ a, x = .ok a ∧ f a = y := by
  cases x <;> simp [Except.map]

theorem nestGo_nil (d : Nat) (c : Bool) : nestGo d c [] = .ok (closeSeq d) := rfl

theorem nestGo_cons_text (d : Nat) (c : Bool) (s : String) (rest : List Item) :
    nestGo d c (.text s :: rest) =
      (nestGo (if c then 0 else d) false rest).map
        (fun out => (if c then closeSeq d else []) ++ [Item.text s] ++ out) := by
  cases c <;> rfl

theorem nestGo_cons_anchor (d : Nat) (c : Bool) (a : Anchor) (rest : List Item) :
    nestGo d c (.anchor a :: rest) =
      (nestGo (if c then 0 else d) false rest).map
        (fun out => (if c then closeSeq d else []) ++ [Item.anchor a] ++ out) := by
  cases c <;> rfl

theorem nestGo_cons_begin_indent (d : Nat) (c : Bool) (n : Nat) (pt : String)
    (rest : List Item) :
    nestGo d c (.begin (.indent n pt) :: rest) =
      (if n < (if c then min d n else d) then .error .assertionError
       else (nestGo n false rest).map
         (fun out => (if c then closeDownSeq d n else []) ++
                     openSeq (if c then min d n else d) n ++ out)) := by
  cases c <;> rfl

theorem nestGo_cons_endt_indent (d : Nat) (c : Bool) (n : Nat) (pt : String)
    (rest : List Item) :
    nestGo d c (.endt (.indent n pt) :: rest) =
      (nestGo d true rest).map (fun out => [] ++ out) := by
  cases c <;> rfl

theorem nestGo_cons_begin_other (d : Nat) (c : Bool) (t : Tag) (rest : List Item)
    (h : isIndentTagB t = false) :
    nestGo d c (.begin t :: rest) =
      (nestGo d c rest).map (fun out => [] ++ [Item.begin t] ++ out) := by
  cases t <;> (try (cases c <;> rfl)) <;> simp [isIndentTagB] at h

theorem nestGo_cons_endt_other (d : Nat) (c : Bool) (t : Tag) (rest : List Item)
    (h : isIndentTagB t = false) :
    nestGo d c (.endt t :: rest) =
      (nestGo d c rest).map (fun out => [] ++ [Item.endt t] ++ out) := by
  cases t <;> (try (cases c <;> rfl)) <;> simp [isIndentTagB] at h

theorem nestGo_cons_beginstr (d : Nat) (c : Bool) (s : String) (rest : List Item) :
    nestGo d c (.beginstr s :: rest) =
      (nestGo d c rest).map (fun out => [] ++ [Item.beginstr s] ++ out) := by
  cases c <;> rfl

theorem nestGo_cons_endstr (d : Nat) (c : Bool) (s : String) (rest : List Item) :
    nestGo d c (.endstr s :: rest) =
      (nestGo d c rest).map (fun out => [] ++ [Item.endstr s] ++ out) := by
  cases c <;> rfl

theorem noStr_cons (x : Item) (l : List Item) :
    noStrEvents (x :: l) =
      ((match x with | .beginstr _ => false | .endstr _ => false | _ => true) &&
        noStrEvents l) := by
  simp [noStrEvents]

theorem noStr_append (a b : List Item) :
    noStrEvents (a ++ b) = (noStrEvents a && noStrEvents b) := by
  simp [noStrEvents, List.all_append]

theorem noStr_closeDown (d n : Nat) : noStrEvents (closeDownSeq d n) = true := by
  induction d with
  | zero => rfl
  | succ d ih =>
    by_cases h : n < d + 1
    · simp [closeDownSeq, h, noStrEvents] at ih ⊢
      exact ih
    · simp [closeDownSeq, h, noStrEvents]

theorem noStr_openFrom (k : Nat) : ∀ d, noStrEvents (openFrom d k) = true := by
  induction k with
  | zero => intro d; rfl
  | succ k ih =>
    intro d
    simp [openFrom, noStrEvents] at ih ⊢
    exact ih (d + 1)

theorem unnestGo_id (l : List Item) (h : noStrEvents l = true) :
    ∀ (i : Int) (st : List String), unnestGo i st l = .ok l := by
  induction l with
  | nil => intro i st; rfl
  | cons it rest ih =>
    intro i st
    rw [noStr_cons] at h
    simp only [Bool.and_eq_true] at h
    have ihr := ih h.2
    cases it <;> simp_all [unnestGo, Except.map]

theorem nestGo_noStr : ∀ (l : List Item) (d : Nat) (c : Bool) (out : List Item),
    noStrEvents l = true → nestGo d c l = .ok out → noStrEvents out = true := by
  intro l
  induction l with
  | nil =>
    intro d c out _ hrun
    rw [nestGo_nil] at hrun
    simp at hrun
    subst hrun
    exact noStr_closeDown d 0
  | cons it rest ih =>
    intro d c out hno hrun
    rw [noStr_cons] at hno
    simp only [Bool.and_eq_true] at hno
    obtain ⟨hit, hrest⟩ := hno
    rcases it with s | a | t | t | s | s
    · rw [nestGo_cons_text, except_map_ok] at hrun
      obtain ⟨out2, hrec, hout⟩ := hrun
      subst hout
      have hout2 := ih _ _ _ hrest hrec
      cases c <;> simp [closeSeq, noStr_append, noStr_cons, noStr_closeDown, hout2]
    · rw [nestGo_cons_anchor, except_map_ok] at hrun
      obtain ⟨out2, hrec, hout⟩ := hrun
      subst hout
      have hout2 := ih _ _ _ hrest hrec
      cases c <;> simp [closeSeq, noStr_append, noStr_cons, noStr_closeDown, hout2]
    · by_cases hind : isIndentTagB t = true
      · rcases t with _ | _ | _ | _ | _ | _ | ⟨n, pt⟩ | _ | _ | _ <;> simp [isIndentTagB] at hind
        rw [nestGo_cons_begin_indent] at hrun
        by_cases hlt : n < (if c then min d n else d)
        · rw [if_pos hlt] at hrun
          exact absurd hrun (by simp)
        · rw [if_neg hlt, except_map_ok] at hrun
          obtain ⟨out2, hrec, hout⟩ := hrun
          subst hout
          have hout2 := ih _ _ _ hrest hrec
          cases c <;>
            simp [noStr_append, noStr_cons, noStr_closeDown, noStr_openFrom, openSeq, hout2]
      · rw [nestGo_cons_begin_other _ _ _ _ (by simpa using hind), except_map_ok] at hrun
        obtain ⟨out2, hrec, hout⟩ := hrun
        subst hout
        have hout2 := ih _ _ _ hrest hrec
        simp [noStr_append, noStr_cons, hout2]
    · by_cases hind : isIndentTagB t = true
      · rcases t with _ | _ | _ | _ | _ | _ | ⟨n, pt⟩ | _ | _ | _ <;> simp [isIndentTagB] at hind
        rw [nestGo_cons_endt_indent, except_map_ok] at hrun
        obtain ⟨out2, hrec, hout⟩ := hrun
        subst hout
        have hout2 := ih _ _ _ hrest hrec
        simpa using hout2
      · rw [nestGo_cons_endt_other _ _ _ _ (by simpa using hind), except_map_ok] at hrun
        obtain ⟨out2, hrec, hout⟩ := hrun
        subst hout
        have hout2 := ih _ _ _ hrest hrec
        simp [noStr_append, noStr_cons, hout2]
    · simp at hit
    · simp at hit

/-- C2 (corrected, counterexample): the claim says un-nesting after nesting
returns the original flat stream; on the valid flat stream with a single
level-2 indent the composition instead returns the properly nested stream,
which differs from the original. -/
theorem claim_c2_counterexample :
    ValidFlat [.begin (.indent 2 "none"), .text "a", .endt (.indent 2 "none")] ∧
    (nest_indent_tags [.begin (.indent 2 "none"), .text "a", .endt (.indent 2 "none")] >>=
        unnest_indent_tags) ≠
      .ok [.begin (.indent 2 "none"), .text "a", .endt (.indent 2 "none")] := by
  constructor
  · exact ValidFlat.block 2 "none" [.text "a"] [] 2 "none" (by decide) ValidFlat.nil
  · decide

/-- C2 (corrected, amended): unnest_indent_tags rewrites only parser-level
beginstr/endstr events, which nest_indent_tags never emits; hence on any
stream free of parser-level events the composition returns the nested stream
nest_indent_tags produced, unchanged — not the original flat structure.  The
flat structure is only recovered through the HTML ol/li encoding. -/
theorem claim_c2_amended (S out : List Item) (hS : noStrEvents S = true)
    (hnest : nest_indent_tags S = .ok out) :
    unnest_indent_tags out = .ok out := by
  have hout := nestGo_noStr S 0 false out hS hnest
  exact unnestGo_id out hout 0 []

/-- C2 witness: the amended statement on the level-2 example. -/
theorem claim_c2_amended_witness :
    noStrEvents [Item.begin (.indent 2 "none"), Item.text "a", Item.endt (.indent 2 "none")] = true ∧
    nest_indent_tags [Item.begin (.indent 2 "none"), Item.text "a", Item.endt (.indent 2 "none")] =
      .ok [Item.begin (.indent 1 "none"), Item.begin (.indent 2 "none"), Item.text "a",
           Item.endt (.indent 2 "none"), Item.endt (.indent 1 "none")] ∧
    unnest_indent_tags
        [Item.begin (.indent 1 "none"), Item.begin (.indent 2 "none"), Item.text "a",
         Item.endt (.indent 2 "none"), Item.endt (.indent 1 "none")] =
      .ok [Item.begin (.indent 1 "none"), Item.begin (.indent 2 "none"), Item.text "a",
           Item.endt (.indent 2 "none"), Item.endt (.indent 1 "none")] :=
  ⟨by decide, by decide,
   claim_c2_amended
     [Item.begin (.indent 2 "none"), Item.text "a", Item.endt (.indent 2 "none")]
     [Item.begin (.indent 1 "none"), Item.begin (.indent 2 "none"), Item.text "a",
      Item.endt (.indent 2 "none"), Item.endt (.indent 1 "none")]
     (by decide) (by decide)⟩

theorem fpOpen_good (ptype : String) (within : Bool) (stk : List Tag)
    (hpt : ptype = "none" ∨ ptype = "bullet") :
    fpOpen ptype within stk =
      .ok (if within then ([], within, stk)
           else ([Item.begin (if ptype == "bullet" then P_BULLET_TAG else P_TAG)], true,
                 (if ptype == "bullet" then P_BULLET_TAG else P_TAG) :: stk)) := by
  rcases hpt with hpt | hpt <;> subst hpt <;> cases within <;> rfl

theorem bind_ok {α β : Type} (a : α) (f : α → Except PyErr β) :
    (Except.ok a : Except PyErr α) >>= f = f a := rfl

theorem fpChars_ok : ∀ (cs full : List Char) (ptype : String) (j i : Nat)
    (within : Bool) (stk : List Tag),
    (ptype = "none" ∨ ptype = "bullet") → (within = true → stk ≠ []) →
    ∃ r, fpChars full ptype cs j i within stk = .ok r ∧
      (r.2.1 = true → r.2.2.1 ≠ []) := by
  intro cs
  induction cs with
  | nil =>
    intro full ptype j i within stk hpt hW
    exact ⟨(([] : List Item), within, stk, i), rfl, hW⟩
  | cons c cs ih =>
    intro full ptype j i within stk hpt hW
    simp only [fpChars, fpOpen_good _ _ _ hpt, bind_ok]
    by_cases hnl : (c == '\n') = true
    · rw [if_pos hnl]
      cases within with
      | true =>
        have hne : stk ≠ [] := hW rfl
        rcases stk with _ | ⟨top, stkRest⟩
        · exact absurd rfl hne
        · obtain ⟨r, hrec, hW2⟩ :=
            ih full ptype (j + 1) (j + 1) false stkRest hpt (by simp)
          try simp only [Bool.false_eq_true, eq_self_iff_true, if_true, if_false]
          try dsimp only
          rw [hrec, bind_ok]
          exact ⟨_, rfl, hW2⟩
      | false =>
        obtain ⟨r, hrec, hW2⟩ :=
          ih full ptype (j + 1) (j + 1) false stk hpt (by simp)
        try simp only [Bool.false_eq_true, eq_self_iff_true, if_true, if_false]
        try dsimp only
        rw [hrec, bind_ok]
        exact ⟨_, rfl, hW2⟩
    · rw [if_neg hnl]
      cases within with
      | true =>
        obtain ⟨r, hrec, hW2⟩ := ih full ptype (j + 1) i true stk hpt hW
        try simp only [Bool.false_eq_true, eq_self_iff_true, if_true, if_false]
        try dsimp only
        rw [hrec, bind_ok]
        exact ⟨_, rfl, hW2⟩
      | false =>
        obtain ⟨r, hrec, hW2⟩ :=
          ih full ptype (j + 1) i true
            ((if ptype == "bullet" then P_BULLET_TAG else P_TAG) :: stk) hpt (by simp)
        try simp only [Bool.false_eq_true, eq_self_iff_true, if_true, if_false]
        try dsimp only
        rw [hrec, bind_ok]
        exact ⟨_, rfl, hW2⟩

theorem fpText_ok (s : String) (ptype : String) (within : Bool) (stk : List Tag)
    (jb : Option Nat) (hpt : ptype = "none" ∨ ptype = "bullet")
    (hW : within = true → stk ≠ []) (hjb : s = "" → jb ≠ none) :
    ∃ r, fpText s ptype within stk jb = .ok r ∧
      (r.2.1 = true → r.2.2.1 ≠ []) ∧ r.2.2.2 ≠ none := by
  simp only [fpText, fpOpen_good _ _ _ hpt, bind_ok]
  by_cases hempty : s.toList.isEmpty = true
  · have hse : s = "" := by
      cases s with
      | mk data =>
        cases data with
        | nil => rfl
        | cons a b => simp [String.toList] at hempty
    have hjbne := hjb hse
    rcases hjbo : jb with _ | j0
    · exact absurd hjbo hjbne
    subst hse
    cases within with
    | true =>
      obtain ⟨r, hrec, hW2⟩ := fpChars_ok "".toList "".toList ptype 0 0 true stk hpt hW
      try rw [if_pos rfl]
      try simp only [Bool.false_eq_true, eq_self_iff_true, if_true, if_false]
      try dsimp only
      rw [hrec, bind_ok]
      try simp only [Bool.false_eq_true, eq_self_iff_true, if_true, if_false]
      rw [if_pos hempty]
      try dsimp only
      by_cases hcmp : r.2.2.2 < j0 + 1
      · rw [if_pos hcmp]
        rcases hw2v : r.2.1 with _ | _
        · simp only [Bool.false_eq_true, eq_self_iff_true, if_true, if_false]
          exact ⟨_, rfl, by simp, by simp⟩
        · simp only [Bool.false_eq_true, eq_self_iff_true, if_true, if_false]
          exact ⟨_, rfl, by simpa using hW2 hw2v, by simp⟩
      · rw [if_neg hcmp]
        exact ⟨_, rfl, hW2, by simp⟩
    | false =>
      obtain ⟨r, hrec, hW2⟩ :=
        fpChars_ok "".toList "".toList ptype 0 0 true
          ((if ptype == "bullet" then P_BULLET_TAG else P_TAG) :: stk) hpt (by simp)
      try rw [if_neg (by simp)]
      try simp only [Bool.false_eq_true, eq_self_iff_true, if_true, if_false]
      try dsimp only
      rw [hrec, bind_ok]
      try simp only [Bool.false_eq_true, eq_self_iff_true, if_true, if_false]
      rw [if_pos hempty]
      try dsimp only
      by_cases hcmp : r.2.2.2 < j0 + 1
      · rw [if_pos hcmp]
        rcases hw2v : r.2.1 with _ | _
        · simp only [Bool.false_eq_true, eq_self_iff_true, if_true, if_false]
          exact ⟨_, rfl, by simp, by simp⟩
        · simp only [Bool.false_eq_true, eq_self_iff_true, if_true, if_false]
          exact ⟨_, rfl, by simpa using hW2 hw2v, by simp⟩
      · rw [if_neg hcmp]
        exact ⟨_, rfl, hW2, by simp⟩
  · have hempty2 : ¬(s.toList.isEmpty = true) := hempty
    cases within with
    | true =>
      obtain ⟨r, hrec, hW2⟩ := fpChars_ok s.toList s.toList ptype 0 0 true stk hpt hW
      try rw [if_pos rfl]
      try simp only [Bool.false_eq_true, eq_self_iff_true, if_true, if_false]
      try dsimp only
      rw [hrec, bind_ok]
      try simp only [Bool.false_eq_true, eq_self_iff_true, if_true, if_false]
      try dsimp only
      rw [if_neg hempty2]
      try dsimp only
      by_cases hcmp : r.2.2.2 < s.toList.length - 1 + 1
      · rw [if_pos hcmp]
        rcases hw2v : r.2.1 with _ | _
        · simp only [Bool.false_eq_true, eq_self_iff_true, if_true, if_false]
          exact ⟨_, rfl, by simp, by simp⟩
        · simp only [Bool.false_eq_true, eq_self_iff_true, if_true, if_false]
          exact ⟨_, rfl, by simpa using hW2 hw2v, by simp⟩
      · rw [if_neg hcmp]
        exact ⟨_, rfl, hW2, by simp⟩
    | false =>
      obtain ⟨r, hrec, hW2⟩ :=
        fpChars_ok s.toList s.toList ptype 0 0 true
          ((if ptype == "bullet" then P_BULLET_TAG else P_TAG) :: stk) hpt (by simp)
      try rw [if_neg (by simp)]
      try simp only [Bool.false_eq_true, eq_self_iff_true, if_true, if_false]
      try dsimp only
      rw [hrec, bind_ok]
      try simp only [Bool.false_eq_true, eq_self_iff_true, if_true, if_false]
      try dsimp only
      rw [if_neg hempty2]
      try dsimp only
      by_cases hcmp : r.2.2.2 < s.toList.length - 1 + 1
      · rw [if_pos hcmp]
        rcases hw2v : r.2.1 with _ | _
        · simp only [Bool.false_eq_true, eq_self_iff_true, if_true, if_false]
          exact ⟨_, rfl, by simp, by simp⟩
        · simp only [Bool.false_eq_true, eq_self_iff_true, if_true, if_false]
          exact ⟨_, rfl, by simpa using hW2 hw2v, by simp⟩
      · rw [if_neg hcmp]
        exact ⟨_, rfl, hW2, by simp⟩

theorem goodIndent_cons (x : Item) (l : List Item) :
    goodIndentTypes (x :: l) =
      ((match x with
        | .begin (.indent _ pt) => pt == "none" || pt == "bullet"
        | _ => true) && goodIndentTypes l) := by
  simp [goodIndentTypes]

theorem firstText_cons_text (s : String) (l : List Item) :
    firstTextEvent (.text s :: l) = some s := rfl

theorem fpText_empty_err (ptype : String) (within : Bool) (stk : List Tag)
    (hpt : ptype = "none" ∨ ptype = "bullet") :
    fpText "" ptype within stk none = .error .unboundLocal := by
  simp only [fpText, fpOpen_good _ _ _ hpt, bind_ok]
  cases within <;>
    simp only [Bool.false_eq_true, eq_self_iff_true, if_true, if_false] <;>
    rfl

theorem fpGo_ok : ∀ (l : List Item) (within : Bool) (others : List Item) (ptype : String)
    (stk : List Tag) (jb : Option Nat),
    goodIndentTypes l = true → (ptype = "none" ∨ ptype = "bullet") →
    (within = true → stk ≠ []) → (jb = none → firstTextEvent l ≠ some "") →
    ∃ out, fpGo within others ptype stk jb l = .ok out := by
  intro l
  induction l with
  | nil =>
    intro within others ptype stk jb _ hpt hW _
    cases within with
    | true =>
      have hne := hW rfl
      rcases stk with _ | ⟨top, stkRest⟩
      · exact absurd rfl hne
      · exact ⟨_, rfl⟩
    | false => exact ⟨_, rfl⟩
  | cons it rest ih =>
    intro within others ptype stk jb hgood hpt hW hjb
    rw [goodIndent_cons] at hgood
    simp only [Bool.and_eq_true] at hgood
    obtain ⟨hgood1, hgood2⟩ := hgood
    rcases it with s | a | t | t | s | s
    · have hjbT : s = "" → jb ≠ none := by
        intro hse hjn
        exact (hjb hjn) (by rw [hse]; rfl)
      obtain ⟨r, hok, hWr, hjbr⟩ := fpText_ok s ptype within stk jb hpt hW hjbT
      obtain ⟨out, hrec⟩ := ih r.2.1 [] ptype r.2.2.1 r.2.2.2 hgood2 hpt hWr
        (fun h => absurd h hjbr)
      simp only [fpGo]
      rw [hok, bind_ok]
      try dsimp only
      rw [hrec, bind_ok]
      exact ⟨_, rfl⟩
    · have hjbR : jb = none → firstTextEvent rest ≠ some "" := by
        intro h
        exact hjb h
      simp only [fpGo, fpOpen_good _ _ _ hpt, bind_ok]
      cases within with
      | true =>
        simp only [eq_self_iff_true, if_true]
        try dsimp only
        obtain ⟨out, hrec⟩ := ih true [] ptype stk jb hgood2 hpt hW hjbR
        rw [hrec, bind_ok]
        exact ⟨_, rfl⟩
      | false =>
        simp only [Bool.false_eq_true, if_false]
        try dsimp only
        obtain ⟨out, hrec⟩ := ih true [] ptype
          ((if ptype == "bullet" then P_BULLET_TAG else P_TAG) :: stk) jb hgood2 hpt
          (by simp) hjbR
        rw [hrec, bind_ok]
        exact ⟨_, rfl⟩
    · have hjbR : jb = none → firstTextEvent rest ≠ some "" := fun h => hjb h
      rcases t with nm | sz | nm | nm | cc | cc | ⟨lvl, pt⟩ | _ | kd | _
      case indent =>
        have hptnew : pt = "none" ∨ pt = "bullet" := by
          simp only at hgood1
          rcases Bool.or_eq_true _ _ |>.mp hgood1 with h | h
          · exact Or.inl (by simpa using h)
          · exact Or.inr (by simpa using h)
        exact ih within (others ++ [Item.begin (.indent lvl pt)]) pt stk jb hgood2
          hptnew hW hjbR
      all_goals
        exact ih within (others ++ [_]) ptype stk jb hgood2 hpt hW hjbR
    · have hjbR : jb = none → firstTextEvent rest ≠ some "" := fun h => hjb h
      exact ih within (others ++ [Item.endt t]) ptype stk jb hgood2 hpt hW hjbR
    · have hjbR : jb = none → firstTextEvent rest ≠ some "" := fun h => hjb h
      exact ih within (others ++ [Item.beginstr s]) ptype stk jb hgood2 hpt hW hjbR
    · have hjbR : jb = none → firstTextEvent rest ≠ some "" := fun h => hjb h
      exact ih within (others ++ [Item.endstr s]) ptype stk jb hgood2 hpt hW hjbR

theorem fpGo_err : ∀ (l : List Item) (within : Bool) (others : List Item) (ptype : String)
    (stk : List Tag),
    goodIndentTypes l = true → (ptype = "none" ∨ ptype = "bullet") →
    (within = true → stk ≠ []) → firstTextEvent l = some "" →
    fpGo within others ptype stk none l = .error .unboundLocal := by
  intro l
  induction l with
  | nil =>
    intro within others ptype stk _ _ _ hft
    exact absurd hft (by simp [firstTextEvent])
  | cons it rest ih =>
    intro within others ptype stk hgood hpt hW hft
    rw [goodIndent_cons] at hgood
    simp only [Bool.and_eq_true] at hgood
    obtain ⟨hgood1, hgood2⟩ := hgood
    rcases it with s | a | t | t | s | s
    · have hse : s = "" := by
        rw [firstText_cons_text] at hft
        simpa using hft
      subst hse
      simp only [fpGo]
      rw [fpText_empty_err ptype within stk hpt]
      rfl
    · simp only [fpGo, fpOpen_good _ _ _ hpt, bind_ok]
      cases within with
      | true =>
        simp only [eq_self_iff_true, if_true]
        try dsimp only
        rw [ih true [] ptype stk hgood2 hpt hW hft]
        rfl
      | false =>
        simp only [Bool.false_eq_true, if_false]
        try dsimp only
        rw [ih true [] ptype
          ((if ptype == "bullet" then P_BULLET_TAG else P_TAG) :: stk) hgood2 hpt
          (by simp) hft]
        rfl
    · rcases t with nm | sz | nm | nm | cc | cc | ⟨lvl, pt⟩ | _ | kd | _
      case indent =>
        have hptnew : pt = "none" ∨ pt = "bullet" := by
          simp only at hgood1
          rcases Bool.or_eq_true _ _ |>.mp hgood1 with h | h
          · exact Or.inl (by simpa using h)
          · exact Or.inr (by simpa using h)
        exact ih within (others ++ [Item.begin (.indent lvl pt)]) pt stk hgood2
          hptnew hW hft
      all_goals
        exact ih within (others ++ [_]) ptype stk hgood2 hpt hW hft
    · exact ih within (others ++ [Item.endt t]) ptype stk hgood2 hpt hW hft
    · exact ih within (others ++ [Item.beginstr s]) ptype stk hgood2 hpt hW hft
    · exact ih within (others ++ [Item.endstr s]) ptype stk hgood2 hpt hW hft

/-- C10 (corrected, counterexample): the claim says the transform is total
only when every text event is non-empty; but an empty text event that is not
the first one does not fail — the stale loop index yields an empty trailing
segment and the transform completes. -/
theorem claim_c10_counterexample :
    find_paragraphs [.text "a", .text ""] =
      .ok [.begin (.par "none"), .text "a", .text "", .endt (.par "none")] := by
  decide

/-- C10 (corrected, amended): over streams whose indent tags carry known
paragraph types, find_paragraphs fails — with Python's UnboundLocalError from
the unbound character-loop index — exactly when the first text event of the
stream carries the empty string; otherwise it is total, later empty text
events merely emitting an empty segment via the stale index. -/
theorem claim_c10_amended (S : List Item) (hgood : goodIndentTypes S = true) :
    (firstTextEvent S = some "" → find_paragraphs S = .error .unboundLocal) ∧
    (firstTextEvent S ≠ some "" → ∃ out, find_paragraphs S = .ok out) := by
  constructor
  · intro hft
    exact fpGo_err S false [] "none" [] hgood (Or.inl rfl) (by simp) hft
  · intro hft
    exact fpGo_ok S false [] "none" [] none hgood (Or.inl rfl) (by simp) (fun _ => hft)

/-- C10 witness: an empty first text event fails with the unbound local. -/
theorem claim_c10_amended_witness :
    goodIndentTypes [Item.text ""] = true ∧
    find_paragraphs [Item.text ""] = .error .unboundLocal :=
  ⟨by decide, (claim_c10_amended [Item.text ""] (by decide)).1 (by decide)⟩

theorem lastIndentType_snoc_indent (seen : List Item) (lvl : Nat) (pt : String) :
    lastIndentType (seen ++ [.begin (.indent lvl pt)]) = pt := by
  simp [lastIndentType, List.foldl_append]

theorem lastIndentType_snoc_other (seen : List Item) (x : Item)
    (h : isBeginIndent x = false) :
    lastIndentType (seen ++ [x]) = lastIndentType seen := by
  simp only [lastIndentType, List.foldl_append, List.foldl_cons, List.foldl_nil]
  rcases x with s | a | t | t | s | s
  · rfl
  · rfl
  · rcases t with nm | sz | nm | nm | cc | cc | ⟨lvl, pt⟩ | _ | kd | _ <;>
      first
      | rfl
      | simp [isBeginIndent] at h
  · rfl
  · rfl
  · rfl

theorem fpGo_eq_spec : ∀ (l : List Item) (within : Bool) (others : List Item)
    (stk : List Tag) (jb : Option Nat) (seen : List Item),
    fpGo within others (lastIndentType seen) stk jb l = fpGoSpec within others seen stk jb l := by
  intro l
  induction l with
  | nil => intro within others stk jb seen; rfl
  | cons it rest ih =>
    intro within others stk jb seen
    rcases it with s | a | t | t | s | s
    · simp only [fpGo, fpGoSpec]
      cases hX : fpText s (lastIndentType seen) within stk jb with
      | error e => rfl
      | ok r =>
        rw [bind_ok, bind_ok]
        try dsimp only
        have hrec := ih r.2.1 [] r.2.2.1 r.2.2.2 (seen ++ [Item.text s])
        rw [lastIndentType_snoc_other seen (Item.text s) (by rfl)] at hrec
        rw [hrec]
    · simp only [fpGo, fpGoSpec]
      cases hX : fpOpen (lastIndentType seen) within stk with
      | error e => rfl
      | ok p =>
        rw [bind_ok, bind_ok]
        try dsimp only
        have hrec := ih p.2.1 [] p.2.2 jb (seen ++ [Item.anchor a])
        rw [lastIndentType_snoc_other seen (Item.anchor a) (by rfl)] at hrec
        rw [hrec]
    · rcases t with nm | sz | nm | nm | cc | cc | ⟨lvl, pt⟩ | _ | kd | _
      case indent =>
        show fpGo within (others ++ [Item.begin (.indent lvl pt)]) pt stk jb rest =
          fpGoSpec within (others ++ [Item.begin (.indent lvl pt)])
            (seen ++ [Item.begin (.indent lvl pt)]) stk jb rest
        have hrec := ih within (others ++ [Item.begin (.indent lvl pt)]) stk jb
          (seen ++ [Item.begin (.indent lvl pt)])
        rw [lastIndentType_snoc_indent] at hrec
        exact hrec
      all_goals {
        refine Eq.trans ?_ (ih within _ stk jb (seen ++ [_]))
        rw [lastIndentType_snoc_other seen _ (by rfl)]
        rfl
      }
    · have hrec := ih within (others ++ [Item.endt t]) stk jb (seen ++ [Item.endt t])
      rw [lastIndentType_snoc_other seen _ (by rfl)] at hrec
      exact hrec
    · have hrec := ih within (others ++ [Item.beginstr s]) stk jb (seen ++ [Item.beginstr s])
      rw [lastIndentType_snoc_other seen _ (by rfl)] at hrec
      exact hrec
    · have hrec := ih within (others ++ [Item.endstr s]) stk jb (seen ++ [Item.endstr s])
      rw [lastIndentType_snoc_other seen _ (by rfl)] at hrec
      exact hrec

/-- C5 (corrected, counterexample): text occurring after its enclosing indent
has ended is still wrapped in a bullet paragraph — the stale paragraph type of
the already-closed indent — where the claim requires the non-indented context
(kind none). -/
theorem claim_c5_counterexample :
    find_paragraphs
        [.begin (.indent 1 "bullet"), .text "a\n", .endt (.indent 1 "bullet"), .text "b\n"] =
      .ok [.begin (.indent 1 "bullet"), .begin (.par "bullet"), .text "a\n",
           .endt (.par "bullet"), .endt (.indent 1 "bullet"),
           .begin (.par "bullet"), .text "b\n", .endt (.par "bullet")] := by
  decide

/-- C5 (corrected, amended): in find_paragraphs every opened paragraph's kind
equals the paragraph type declared by the most recently begun indent tag among
the items consumed so far — whether or not that indent is still open;
formally, the transform coincides with the variant that recomputes the type
from the consumed prefix at every text and anchor event. -/
theorem claim_c5_amended (S : List Item) :
    find_paragraphs S = find_paragraphs_spec S :=
  fpGo_eq_spec S false [] [] none []

theorem startsWith_conflict {l : List Char} {c1 : Char} {p1 : List Char}
    (h : listStartsWith (c1 :: p1) l = true) {c2 : Char} {p2 : List Char}
    (hne : (c2 == c1) = false) : listStartsWith (c2 :: p2) l = false := by
  cases l with
  | nil => simp [listStartsWith] at h
  | cons d rest =>
    simp only [listStartsWith, Bool.and_eq_true, beq_iff_eq] at h
    obtain ⟨hcd, _⟩ := h
    subst hcd
    simp only [listStartsWith, Bool.and_eq_false_iff]
    left
    exact hne

theorem styleStep_htmlError_iff (s : String) :
    (∃ m, styleStep s = .error (.htmlError m)) ↔ isBadAlign s = true := by
  by_cases h1 : pyStartsWith (pyStrip s) "font-size" = true
  · have h1l : listStartsWith ('f' :: "ont-size".toList) (pyStrip s).toList = true := h1
    have hta : pyStartsWith (pyStrip s) "text-align" = false :=
      startsWith_conflict h1l (by decide)
    unfold styleStep isBadAlign
    dsimp only
    rw [if_pos h1, hta]
    simp only [Bool.false_and]
    rcases hd : (pySplit (pyStrip s) ':').drop 1 with _ | ⟨v, t⟩
    · simp
    · refine iff_of_false ?_ (by simp)
      rintro ⟨m, hm⟩
      split at hm <;> (try split at hm) <;> simp at hm
  · unfold styleStep isBadAlign
    dsimp only
    rw [if_neg h1]
    by_cases h2 : pyStartsWith (pyStrip s) "font-family" = true
    · have h2l : listStartsWith ('f' :: "ont-family".toList) (pyStrip s).toList = true := h2
      have hta : pyStartsWith (pyStrip s) "text-align" = false :=
        startsWith_conflict h2l (by decide)
      rw [if_pos h2, hta]
      simp only [Bool.false_and]
      rcases hd : (pySplit (pyStrip s) ':').drop 1 with _ | ⟨v, t⟩ <;> simp
    · rw [if_neg h2]
      by_cases h3 : pyStartsWith (pyStrip s) "text-align" = true
      · rw [if_pos h3, h3]
        simp only [Bool.true_and]
        rcases hd : (pySplit (pyStrip s) ':').drop 1 with _ | ⟨v, t⟩
        · simp
        · dsimp only
          by_cases hj : justifySet.contains (pyStrip v) = true
          · have hmem : pyStrip v ∈ justifySet := by simpa using hj
            by_cases hjv : (pyStrip v == "justify") = true <;> simp [hmem, hjv]
          · have hnmem : pyStrip v ∉ justifySet := by
              intro hmem
              exact hj (by simpa using hmem)
            simp [hnmem]
      · have hta : pyStartsWith (pyStrip s) "text-align" = false := by simpa using h3
        rw [if_neg h3, hta]
        simp only [Bool.false_and]
        by_cases h4 : pyStartsWith (pyStrip s) "color" = true
        · rw [if_pos h4]
          rcases hd : (pySplit (pyStrip s) ':').drop 1 with _ | ⟨v, t⟩ <;> simp
        · rw [if_neg h4]
          by_cases h5 : pyStartsWith (pyStrip s) "background-color" = true
          · rw [if_pos h5]
            rcases hd : (pySplit (pyStrip s) ':').drop 1 with _ | ⟨v, t⟩ <;> simp
          · rw [if_neg h5]
            simp

theorem bind_err {α β : Type} (e : PyErr) (f : α → Except PyErr β) :
    (Except.error e : Except PyErr α) >>= f = Except.error e := rfl

theorem parse_style_stmts_cons (s : String) (rest : List String) :
    parse_style_stmts (s :: rest) =
      styleStep s >>= fun t => parse_style_stmts rest >>= fun out =>
        Except.ok (t.toList ++ out) := rfl

theorem parse_style_stmts_htmlError_iff (stmts : List String) :
    (∃ m, parse_style_stmts stmts = .error (.htmlError m)) ↔
    (∃ pre st suf, stmts = pre ++ st :: suf ∧ (∀ x ∈ pre, ∃ r, styleStep x = .ok r) ∧
      isBadAlign st = true) := by
  induction stmts with
  | nil =>
    constructor
    · intro ⟨m, hm⟩
      exact absurd hm (by simp [parse_style_stmts])
    · intro ⟨pre, st0, suf, hsplit, _, _⟩
      exact absurd hsplit (by simp)
  | cons s rest ih =>
    constructor
    · intro ⟨m, hm⟩
      cases hs : styleStep s with
      | error e =>
        rw [parse_style_stmts_cons, hs, bind_err] at hm
        have he : e = .htmlError m := by injection hm
        subst he
        have hbad := (styleStep_htmlError_iff s).mp ⟨m, hs⟩
        exact ⟨[], s, rest, rfl, by simp, hbad⟩
      | ok t =>
        rw [parse_style_stmts_cons, hs, bind_ok] at hm
        cases hr : parse_style_stmts rest with
        | error e2 =>
          rw [hr, bind_err] at hm
          have he : e2 = .htmlError m := by injection hm
          subst he
          obtain ⟨pre, st0, suf, hsplit, hpre, hbad⟩ := ih.mp ⟨m, hr⟩
          refine ⟨s :: pre, st0, suf, by simp [hsplit], ?_, hbad⟩
          intro x hx
          rcases List.mem_cons.mp hx with hx | hx
          · exact hx ▸ ⟨t, hs⟩
          · exact hpre x hx
        | ok outr =>
          rw [hr, bind_ok] at hm
          exact absurd hm (by simp)
    · intro ⟨pre, st0, suf, hsplit, hpre, hbad⟩
      cases pre with
      | nil =>
        simp only [List.nil_append, List.cons.injEq] at hsplit
        obtain ⟨rfl, rfl⟩ := hsplit
        obtain ⟨m, hm⟩ := (styleStep_htmlError_iff s).mpr hbad
        exact ⟨m, by rw [parse_style_stmts_cons, hm, bind_err]⟩
      | cons p ps =>
        simp only [List.cons_append, List.cons.injEq] at hsplit
        obtain ⟨rfl, hrest⟩ := hsplit
        obtain ⟨r, hr⟩ := hpre s (by simp)
        obtain ⟨m, hm⟩ := ih.mpr ⟨ps, st0, suf, hrest, fun x hx => hpre x (by simp [hx]), hbad⟩
        exact ⟨m, by rw [parse_style_stmts_cons, hr, bind_ok, hm, bind_err]⟩

/-- C7 (confirmed): parse_style raises an HtmlError exactly when the first
failing declaration is a text-align whose stripped value is outside
{left, center, right, fill, justify} (declarations before it all parse); the
accepted value justify maps to the fill tag string, each other accepted value
to the tag string of the same name. -/
theorem claim_c7_align_errors :
    (∀ ss : String, (∃ m, parse_style ss = .error (.htmlError m)) ↔
      (∃ pre st suf, pySplit ss ';' = pre ++ st :: suf ∧
        (∀ x ∈ pre, ∃ r, styleStep x = .ok r) ∧ isBadAlign st = true)) ∧
    styleStep "text-align: left" = .ok (some "left") ∧
    styleStep "text-align: center" = .ok (some "center") ∧
    styleStep "text-align: right" = .ok (some "right") ∧
    styleStep "text-align: fill" = .ok (some "fill") ∧
    styleStep "text-align: justify" = .ok (some "fill") ∧
    styleStep "text-align: bogus" = .error (.htmlError "unknown justification 'bogus'") :=
  ⟨fun ss => parse_style_stmts_htmlError_iff (pySplit ss ';'),
   by decide, by decide, by decide, by decide, by decide, by decide⟩

/-- C6 witness: the shorthand #1a9 expands to #11aa99, and the internal color
#11112222333 round-trips through the writer and the parser unchanged. -/
theorem claim_c6_color_roundtrip_witness :
    (styleStep "color: #1a9" = .ok (some "fg_color #11aa99") ∧
     styleStep "background-color: #1a9" = .ok (some "bg_color #11aa99")) ∧
    ∃ h7 : String, tagcolor_to_html "#112233445566" = .ok h7 ∧ h7.toList.length = 7 ∧
      styleStep ("color: " ++ h7) = .ok (some ("fg_color" ++ " " ++ h7)) ∧
      styleStep ("background-color: " ++ h7) = .ok (some ("bg_color" ++ " " ++ h7)) := by
  constructor
  · have h := claim_c6_color_roundtrip.1 '1' 'a' '9' (by decide) (by decide) (by decide)
    exact ⟨h.1, h.2⟩
  · exact claim_c6_color_roundtrip.2 "#112233445566"
      ['1', '1', '2', '2', '3', '3', '4', '4', '5', '5', '6', '6']
      (by decide) (by decide) (by decide)

theorem option_bind_some {α β : Type} (a : α) (f : α → Option β) :
    (some a).bind f = f a := rfl

theorem option_bind_none {α β : Type} (f : α → Option β) :
    (none : Option α).bind f = none := rfl

theorem checkRun_cons (d : Nat) (it : Item) (l : List Item) :
    checkRun d (it :: l) = (checkStep d it).bind (fun e => checkRun e l) := by
  cases it with
  | text s => rfl
  | anchor a => rfl
  | beginstr s => rfl
  | endstr s => rfl
  | begin t =>
    cases t with
    | indent k pt =>
      by_cases h : (k == d + 1) = true <;> simp [checkRun, checkStep, h]
    | mod s => rfl
    | size n => rfl
    | justify s => rfl
    | family s => rfl
    | fgcolor c => rfl
    | bgcolor c => rfl
    | bullet => rfl
    | par s => rfl
    | li => rfl
  | endt t =>
    cases t with
    | indent k pt =>
      by_cases h : (k == d && !(k == 0)) = true <;> simp [checkRun, checkStep, h]
    | mod s => rfl
    | size n => rfl
    | justify s => rfl
    | family s => rfl
    | fgcolor c => rfl
    | bgcolor c => rfl
    | bullet => rfl
    | par s => rfl
    | li => rfl

theorem checkStep_plain (d : Nat) (it : Item) (h : plainItem it = true) :
    checkStep d it = some d := by
  cases it with
  | text s => rfl
  | anchor a => rfl
  | beginstr s => rfl
  | endstr s => rfl
  | begin t =>
    cases t with
    | indent k pt => exact absurd h (by simp [plainItem])
    | mod s => rfl
    | size n => rfl
    | justify s => rfl
    | family s => rfl
    | fgcolor c => rfl
    | bgcolor c => rfl
    | bullet => rfl
    | par s => rfl
    | li => rfl
  | endt t =>
    cases t with
    | indent k pt => exact absurd h (by simp [plainItem])
    | mod s => rfl
    | size n => rfl
    | justify s => rfl
    | family s => rfl
    | fgcolor c => rfl
    | bgcolor c => rfl
    | bullet => rfl
    | par s => rfl
    | li => rfl

theorem checkRun_append (l1 l2 : List Item) : ∀ (d e : Nat), checkRun d l1 = some e →
    checkRun d (l1 ++ l2) = checkRun e l2 := by
  induction l1 with
  | nil =>
    intro d e h
    have hd : d = e := by simpa [checkRun] using h
    subst hd
    rfl
  | cons it rest ih =>
    intro d e h
    rw [checkRun_cons] at h
    rw [List.cons_append, checkRun_cons]
    cases hs : checkStep d it with
    | none =>
      rw [hs, option_bind_none] at h
      exact absurd h (by simp)
    | some d2 =>
      rw [hs, option_bind_some] at h
      rw [option_bind_some]
      exact ih d2 e h

theorem checkRun_closeDownSeq (d n : Nat) :
    checkRun d (closeDownSeq d n) = some (min d n) := by
  induction d with
  | zero => simp [closeDownSeq, checkRun]
  | succ d ih =>
    by_cases h : n < d + 1
    · rw [show closeDownSeq (d + 1) n = .endt (lookupIndentTag (d + 1)) :: closeDownSeq d n
        from by simp [closeDownSeq, h]]
      rw [checkRun_cons]
      have hstep : checkStep (d + 1) (.endt (lookupIndentTag (d + 1))) = some d := by
        simp [checkStep, lookupIndentTag]
      rw [hstep, option_bind_some, ih]
      have hm : min d n = min (d + 1) n := by omega
      rw [hm]
    · rw [show closeDownSeq (d + 1) n = [] from by simp [closeDownSeq, h]]
      have hm : min (d + 1) n = d + 1 := by omega
      simp [checkRun, hm]

theorem checkRun_openFrom (k : Nat) : ∀ (d : Nat),
    checkRun d (openFrom d k) = some (d + k) := by
  induction k with
  | zero =>
    intro d
    simp [openFrom, checkRun]
  | succ k ih =>
    intro d
    rw [show openFrom d (k + 1) = .begin (lookupIndentTag (d + 1)) :: openFrom (d + 1) k
      from rfl]
    rw [checkRun_cons]
    have hstep : checkStep d (.begin (lookupIndentTag (d + 1))) = some (d + 1) := by
      simp [checkStep, lookupIndentTag]
    rw [hstep, option_bind_some, ih]
    have hm : d + 1 + k = d + (k + 1) := by omega
    rw [hm]

theorem checkRun_plain_prefix : ∀ (body : List Item),
    (∀ it ∈ body, plainItem it = true) → ∀ (d : Nat) (l : List Item),
    checkRun d (body ++ l) = checkRun d l := by
  intro body
  induction body with
  | nil => intro _ d l; rfl
  | cons it rest ih =>
    intro h d l
    rw [List.cons_append, checkRun_cons, checkStep_plain d it (h it (by simp)),
      option_bind_some]
    exact ih (fun x hx => h x (by simp [hx])) d l

theorem nestGo_cons_plain (d : Nat) (it : Item) (h : plainItem it = true)
    (l : List Item) :
    nestGo d false (it :: l) = (nestGo d false l).map (fun out => it :: out) := by
  cases it with
  | text s =>
    rw [nestGo_cons_text d false s l]
    simp only [Bool.false_eq_true, if_false]
    cases hx : nestGo d false l <;> simp [Except.map]
  | anchor a =>
    rw [nestGo_cons_anchor d false a l]
    simp only [Bool.false_eq_true, if_false]
    cases hx : nestGo d false l <;> simp [Except.map]
  | beginstr s =>
    rw [nestGo_cons_beginstr d false s l]
    cases hx : nestGo d false l <;> simp [Except.map]
  | endstr s =>
    rw [nestGo_cons_endstr d false s l]
    cases hx : nestGo d false l <;> simp [Except.map]
  | begin t =>
    have ht : isIndentTagB t = false := by
      cases t <;> simp_all [plainItem, isIndentTagB]
    rw [nestGo_cons_begin_other d false t l ht]
    cases hx : nestGo d false l <;> simp [Except.map]
  | endt t =>
    have ht : isIndentTagB t = false := by
      cases t <;> simp_all [plainItem, isIndentTagB]
    rw [nestGo_cons_endt_other d false t l ht]
    cases hx : nestGo d false l <;> simp [Except.map]

theorem nestGo_plain_pass : ∀ (body : List Item),
    (∀ it ∈ body, plainItem it = true) → ∀ (d : Nat) (tail : List Item),
    nestGo d false (body ++ tail) = (nestGo d false tail).map (fun out => body ++ out) := by
  intro body
  induction body with
  | nil =>
    intro _ d tail
    cases hx : nestGo d false tail <;> simp [Except.map, hx]
  | cons it rest ih =>
    intro h d tail
    rw [List.cons_append, nestGo_cons_plain d it (h it (by simp)) (rest ++ tail),
      ih (fun x hx => h x (by simp [hx])) d tail]
    cases hx : nestGo d false tail <;> simp [Except.map, hx]

theorem nestGo_valid : ∀ (S : List Item), ValidFlat S → ∀ (d : Nat) (c : Bool),
    (c = false → d = 0) →
    ∃ out, nestGo d c S = .ok out ∧ checkRun d out = some 0 := by
  intro S hS
  induction hS with
  | nil =>
    intro d c _
    refine ⟨closeSeq d, nestGo_nil d c, ?_⟩
    simpa [closeSeq] using checkRun_closeDownSeq d 0
  | plain it rest hplain hrest ih =>
    intro d c hc
    cases c with
    | false =>
      have hd : d = 0 := hc rfl
      subst hd
      obtain ⟨out, hout, hchk⟩ := ih 0 false (fun _ => rfl)
      refine ⟨it :: out, ?_, ?_⟩
      · rw [nestGo_cons_plain 0 it hplain rest, hout]
        rfl
      · rw [checkRun_cons, checkStep_plain 0 it hplain, option_bind_some]
        exact hchk
    | true =>
      cases it with
      | text s =>
        obtain ⟨out, hout, hchk⟩ := ih 0 false (fun _ => rfl)
        have heq : nestGo d true (.text s :: rest) =
            .ok (closeSeq d ++ (.text s :: out)) := by
          rw [nestGo_cons_text d true s rest]
          simp only [eq_self_iff_true, if_true]
          rw [hout]
          simp [Except.map]
        refine ⟨_, heq, ?_⟩
        have h1 : checkRun d (closeSeq d) = some 0 := by
          simpa [closeSeq] using checkRun_closeDownSeq d 0
        rw [checkRun_append _ _ d 0 h1, checkRun_cons,
          checkStep_plain 0 (.text s) (by rfl), option_bind_some]
        exact hchk
      | anchor a =>
        obtain ⟨out, hout, hchk⟩ := ih 0 false (fun _ => rfl)
        have heq : nestGo d true (.anchor a :: rest) =
            .ok (closeSeq d ++ (.anchor a :: out)) := by
          rw [nestGo_cons_anchor d true a rest]
          simp only [eq_self_iff_true, if_true]
          rw [hout]
          simp [Except.map]
        refine ⟨_, heq, ?_⟩
        have h1 : checkRun d (closeSeq d) = some 0 := by
          simpa [closeSeq] using checkRun_closeDownSeq d 0
        rw [checkRun_append _ _ d 0 h1, checkRun_cons,
          checkStep_plain 0 (.anchor a) (by rfl), option_bind_some]
        exact hchk
      | beginstr s =>
        obtain ⟨out, hout, hchk⟩ := ih d true (fun hh => absurd hh (by decide))
        have heq : nestGo d true (.beginstr s :: rest) = .ok (.beginstr s :: out) := by
          rw [nestGo_cons_beginstr d true s rest, hout]
          simp [Except.map]
        refine ⟨_, heq, ?_⟩
        rw [checkRun_cons, checkStep_plain d (.beginstr s) (by rfl), option_bind_some]
        exact hchk
      | endstr s =>
        obtain ⟨out, hout, hchk⟩ := ih d true (fun hh => absurd hh (by decide))
        have heq : nestGo d true (.endstr s :: rest) = .ok (.endstr s :: out) := by
          rw [nestGo_cons_endstr d true s rest, hout]
          simp [Except.map]
        refine ⟨_, heq, ?_⟩
        rw [checkRun_cons, checkStep_plain d (.endstr s) (by rfl), option_bind_some]
        exact hchk
      | begin t =>
        have ht : isIndentTagB t = false := by
          cases t <;> simp_all [plainItem, isIndentTagB]
        obtain ⟨out, hout, hchk⟩ := ih d true (fun hh => absurd hh (by decide))
        have heq : nestGo d true (.begin t :: rest) = .ok (.begin t :: out) := by
          rw [nestGo_cons_begin_other d true t rest ht, hout]
          simp [Except.map]
        refine ⟨_, heq, ?_⟩
        rw [checkRun_cons, checkStep_plain d (.begin t) hplain, option_bind_some]
        exact hchk
      | endt t =>
        have ht : isIndentTagB t = false := by
          cases t <;> simp_all [plainItem, isIndentTagB]
        obtain ⟨out, hout, hchk⟩ := ih d true (fun hh => absurd hh (by decide))
        have heq : nestGo d true (.endt t :: rest) = .ok (.endt t :: out) := by
          rw [nestGo_cons_endt_other d true t rest ht, hout]
          simp [Except.map]
        refine ⟨_, heq, ?_⟩
        rw [checkRun_cons, checkStep_plain d (.endt t) hplain, option_bind_some]
        exact hchk
  | block n pt body rest m pt2 hbody hrest ih =>
    intro d c hc
    obtain ⟨out, hout, hchk⟩ := ih n true (fun hh => absurd hh (by decide))
    have hinner : nestGo n false (body ++ .endt (.indent m pt2) :: rest) =
        .ok (body ++ out) := by
      rw [nestGo_plain_pass body hbody n _, nestGo_cons_endt_indent n false m pt2 rest,
        hout]
      simp [Except.map]
    cases c with
    | false =>
      have hd : d = 0 := hc rfl
      subst hd
      have heq : nestGo 0 false
          (.begin (.indent n pt) :: (body ++ .endt (.indent m pt2) :: rest)) =
          .ok (openSeq 0 n ++ (body ++ out)) := by
        rw [nestGo_cons_begin_indent 0 false n pt _]
        simp only [Bool.false_eq_true, if_false]
        rw [if_neg (Nat.not_lt_zero n), hinner]
        simp [Except.map]
      refine ⟨_, heq, ?_⟩
      have h1 : checkRun 0 (openSeq 0 n) = some n := by
        simpa [openSeq] using checkRun_openFrom n 0
      rw [checkRun_append _ _ 0 n h1, checkRun_plain_prefix body hbody n out]
      exact hchk
    | true =>
      have heq : nestGo d true
          (.begin (.indent n pt) :: (body ++ .endt (.indent m pt2) :: rest)) =
          .ok (closeDownSeq d n ++ (openSeq (min d n) n ++ (body ++ out))) := by
        rw [nestGo_cons_begin_indent d true n pt _]
        simp only [eq_self_iff_true, if_true]
        rw [if_neg (Nat.not_lt.mpr (Nat.min_le_right d n)), hinner]
        simp [Except.map]
      refine ⟨_, heq, ?_⟩
      rw [checkRun_append _ _ d (min d n) (checkRun_closeDownSeq d n)]
      have h2 : checkRun (min d n) (openSeq (min d n) n) = some n := by
        rw [openSeq, checkRun_openFrom (n - min d n) (min d n)]
        have hm : min d n + (n - min d n) = n := by omega
        rw [hm]
      rw [checkRun_append _ _ (min d n) n h2, checkRun_plain_prefix body hbody n out]
      exact hchk

theorem checkStep_count (d d2 : Nat) (it : Item) (h : checkStep d it = some d2) :
    countBeginIndent [it] + d = countEndIndent [it] + d2 := by
  cases it with
  | text s =>
    have hd : d = d2 := by simpa [checkStep] using h
    simp [countBeginIndent, countEndIndent, hd]
  | anchor a =>
    have hd : d = d2 := by simpa [checkStep] using h
    simp [countBeginIndent, countEndIndent, hd]
  | beginstr s =>
    have hd : d = d2 := by simpa [checkStep] using h
    simp [countBeginIndent, countEndIndent, hd]
  | endstr s =>
    have hd : d = d2 := by simpa [checkStep] using h
    simp [countBeginIndent, countEndIndent, hd]
  | begin t =>
    cases t with
    | indent k pt =>
      simp only [checkStep] at h
      by_cases hk : (k == d + 1) = true
      · rw [if_pos hk] at h
        have hd2 : d + 1 = d2 := by injection h
        simp only [countBeginIndent, countEndIndent, List.countP_cons, List.countP_nil]
        simp
        omega
      · rw [if_neg hk] at h
        exact absurd h (by simp)
    | mod s =>
      have hd : d = d2 := by simpa [checkStep] using h
      simp [countBeginIndent, countEndIndent, hd]
    | size n =>
      have hd : d = d2 := by simpa [checkStep] using h
      simp [countBeginIndent, countEndIndent, hd]
    | justify s =>
      have hd : d = d2 := by simpa [checkStep] using h
      simp [countBeginIndent, countEndIndent, hd]
    | family s =>
      have hd : d = d2 := by simpa [checkStep] using h
      simp [countBeginIndent, countEndIndent, hd]
    | fgcolor c =>
      have hd : d = d2 := by simpa [checkStep] using h
      simp [countBeginIndent, countEndIndent, hd]
    | bgcolor c =>
      have hd : d = d2 := by simpa [checkStep] using h
      simp [countBeginIndent, countEndIndent, hd]
    | bullet =>
      have hd : d = d2 := by simpa [checkStep] using h
      simp [countBeginIndent, countEndIndent, hd]
    | par s =>
      have hd : d = d2 := by simpa [checkStep] using h
      simp [countBeginIndent, countEndIndent, hd]
    | li =>
      have hd : d = d2 := by simpa [checkStep] using h
      simp [countBeginIndent, countEndIndent, hd]
  | endt t =>
    cases t with
    | indent k pt =>
      simp only [checkStep] at h
      by_cases hk : (k == d && !(k == 0)) = true
      · rw [if_pos hk] at h
        have hd2 : k - 1 = d2 := by injection h
        have hk2 : k = d ∧ ¬k = 0 := by simpa using hk
        simp only [countBeginIndent, countEndIndent, List.countP_cons, List.countP_nil]
        simp
        omega
      · rw [if_neg hk] at h
        exact absurd h (by simp)
    | mod s =>
      have hd : d = d2 := by simpa [checkStep] using h
      simp [countBeginIndent, countEndIndent, hd]
    | size n =>
      have hd : d = d2 := by simpa [checkStep] using h
      simp [countBeginIndent, countEndIndent, hd]
    | justify s =>
      have hd : d = d2 := by simpa [checkStep] using h
      simp [countBeginIndent, countEndIndent, hd]
    | family s =>
      have hd : d = d2 := by simpa [checkStep] using h
      simp [countBeginIndent, countEndIndent, hd]
    | fgcolor c =>
      have hd : d = d2 := by simpa [checkStep] using h
      simp [countBeginIndent, countEndIndent, hd]
    | bgcolor c =>
      have hd : d = d2 := by simpa [checkStep] using h
      simp [countBeginIndent, countEndIndent, hd]
    | bullet =>
      have hd : d = d2 := by simpa [checkStep] using h
      simp [countBeginIndent, countEndIndent, hd]
    | par s =>
      have hd : d = d2 := by simpa [checkStep] using h
      simp [countBeginIndent, countEndIndent, hd]
    | li =>
      have hd : d = d2 := by simpa [checkStep] using h
      simp [countBeginIndent, countEndIndent, hd]

theorem checkRun_counts : ∀ (l : List Item) (d e : Nat), checkRun d l = some e →
    countBeginIndent l + d = countEndIndent l + e := by
  intro l
  induction l with
  | nil =>
    intro d e h
    have hd : d = e := by simpa [checkRun] using h
    simp [countBeginIndent, countEndIndent, hd]
  | cons it rest ih =>
    intro d e h
    rw [checkRun_cons] at h
    cases hs : checkStep d it with
    | none =>
      rw [hs, option_bind_none] at h
      exact absurd h (by simp)
    | some d2 =>
      rw [hs, option_bind_some] at h
      have h1 := checkStep_count d d2 it hs
      have h2 := ih d2 e h
      have hb : countBeginIndent (it :: rest) =
          countBeginIndent [it] + countBeginIndent rest := by
        simp only [countBeginIndent, List.countP_cons, List.countP_nil]
        omega
      have he : countEndIndent (it :: rest) =
          countEndIndent [it] + countEndIndent rest := by
        simp only [countEndIndent, List.countP_cons, List.countP_nil]
        omega
      omega

/-- C4: for every valid flat-indent stream, nest_indent_tags succeeds; its
output passes the proper-nesting checker from depth 0 back to depth 0 (levels
increase by one on open, decrease by one on close, depth 0 at stream end), and
it carries equally many typed indent begin and indent end events. -/
theorem claim_c4_nest_invariants (S : List Item) (h : ValidFlat S) :
    ∃ out, nest_indent_tags S = .ok out ∧ checkRun 0 out = some 0 ∧
      countBeginIndent out = countEndIndent out := by
  obtain ⟨out, hout, hchk⟩ := nestGo_valid S h 0 false (fun _ => rfl)
  refine ⟨out, hout, hchk, ?_⟩
  have hcount := checkRun_counts out 0 0 hchk
  omega

/-- C4 witness: the one-block bullet stream is a valid flat stream, and the
claim theorem applies to it. -/
theorem claim_c4_nest_invariants_witness :
    ∃ out, nest_indent_tags
        [.begin (.indent 1 "bullet"), .text "a", .endt (.indent 1 "bullet")] = .ok out ∧
      checkRun 0 out = some 0 ∧ countBeginIndent out = countEndIndent out :=
  claim_c4_nest_invariants _
    (ValidFlat.block 1 "bullet" [.text "a"] [] 1 "bullet" (by decide) ValidFlat.nil)

theorem runTrace_nil {σ : Type} (step : σ → Item → Except PyErr σ) (st : σ) :
    runTrace step st [] = .ok ([st], st) := rfl

theorem runTrace_cons_eq {σ : Type} (step : σ → Item → Except PyErr σ) (st : σ)
    (it : Item) (rest : List Item) :
    runTrace step st (it :: rest) =
      step st it >>= (fun s2 => runTrace step s2 rest >>=
        (fun p => .ok (st :: p.1, p.2))) := rfl

theorem runTrace_cons_ok {σ : Type} {step : σ → Item → Except PyErr σ} {st st2 : σ}
    {it : Item} {rest : List Item} {tr : List σ} {f : σ}
    (h1 : step st it = .ok st2) (h2 : runTrace step st2 rest = .ok (tr, f)) :
    runTrace step st (it :: rest) = .ok (st :: tr, f) := by
  rw [runTrace_cons_eq, h1, bind_ok, h2, bind_ok]

theorem runTrace_ne_nil {σ : Type} (step : σ → Item → Except PyErr σ) (st : σ)
    (l : List Item) (tr : List σ) (f : σ) (h : runTrace step st l = .ok (tr, f)) :
    tr ≠ [] := by
  cases l with
  | nil =>
    rw [runTrace_nil] at h
    have hp : ([st], st) = (tr, f) := by injection h
    injection hp with htr hf
    subst htr
    simp
  | cons it rest =>
    rw [runTrace_cons_eq] at h
    cases hs : step st it with
    | error e =>
      rw [hs, bind_err] at h
      exact absurd h (by simp)
    | ok st2 =>
      rw [hs, bind_ok] at h
      cases hr : runTrace step st2 rest with
      | error e =>
        rw [hr, bind_err] at h
        exact absurd h (by simp)
      | ok p =>
        rw [hr, bind_ok] at h
        have hp : (st :: p.1, p.2) = (tr, f) := by injection h
        injection hp with htr hf
        subst htr
        simp

theorem runTrace_compose {σ : Type} (step : σ → Item → Except PyErr σ) :
    ∀ (l1 : List Item) (st : σ) (tr1 : List σ) (f1 : σ),
    runTrace step st l1 = .ok (tr1, f1) →
    ∀ (l2 : List Item) (tr2 : List σ) (f2 : σ),
    runTrace step f1 l2 = .ok (tr2, f2) →
    runTrace step st (l1 ++ l2) = .ok (tr1.dropLast ++ tr2, f2) := by
  intro l1
  induction l1 with
  | nil =>
    intro st tr1 f1 h1 l2 tr2 f2 h2
    rw [runTrace_nil] at h1
    have hp : ([st], st) = (tr1, f1) := by injection h1
    injection hp with htr hf
    subst htr
    subst hf
    simpa using h2
  | cons it l1 ih =>
    intro st tr1 f1 h1 l2 tr2 f2 h2
    rw [runTrace_cons_eq] at h1
    cases hs : step st it with
    | error e =>
      rw [hs, bind_err] at h1
      exact absurd h1 (by simp)
    | ok st2 =>
      rw [hs, bind_ok] at h1
      cases hr : runTrace step st2 l1 with
      | error e =>
        rw [hr, bind_err] at h1
        exact absurd h1 (by simp)
      | ok p =>
        rw [hr, bind_ok] at h1
        have hp : (st :: p.1, p.2) = (tr1, f1) := by injection h1
        injection hp with htr hf
        subst hf
        have hr2 : runTrace step st2 l1 = .ok (p.1, p.2) := by rw [hr]
        have hcomp := ih st2 p.1 p.2 hr2 l2 tr2 f2 h2
        have hne : p.1 ≠ [] := runTrace_ne_nil step st2 l1 p.1 p.2 hr2
        rw [List.cons_append, runTrace_cons_eq, hs, bind_ok, hcomp, bind_ok]
        subst htr
        rw [List.dropLast_cons_of_ne_nil hne]
        rfl

theorem stepUnnest_plain (st : Int × List String) (it : Item)
    (h : nonListItem it = true) : stepUnnest st it = .ok st := by
  cases it with
  | text s => rfl
  | anchor a => rfl
  | begin t => rfl
  | endt t => rfl
  | beginstr p =>
    simp only [nonListItem, Bool.not_eq_true', Bool.or_eq_false_iff] at h
    simp [stepUnnest, h.1, h.2]
  | endstr p =>
    simp only [nonListItem, Bool.not_eq_true', Bool.or_eq_false_iff] at h
    simp [stepUnnest, h.1, h.2]

theorem li_ne_ol (t : String) : (("li " ++ t) == "ol") = false := by
  cases hb : (("li " ++ t) == "ol") with
  | false => rfl
  | true =>
    have heq : ("li " ++ t) = "ol" := eq_of_beq hb
    have hl := congrArg String.length heq
    rw [String.length_append] at hl
    have h3 : "li ".length = 3 := rfl
    have h2 : "ol".length = 2 := rfl
    omega

theorem li_starts (t : String) : pyStartsWith ("li " ++ t) "li" = true := rfl

theorem unnest_state_joint : ∀ (n : Nat) (S : List Item), S.length ≤ n →
    (WFForest S → ∀ (i : Int) (stk : List String), (stk.length : Int) = i →
      ∃ tr, runTrace stepUnnest (i, stk) S = .ok (tr, (i, stk)) ∧
        ∀ p ∈ tr, (p.2.length : Int) ≤ p.1 ∧ p.1 ≤ (p.2.length : Int) + 1) ∧
    (WFItems S → ∀ (i : Int) (stk : List String), (stk.length : Int) + 1 = i →
      ∃ tr, runTrace stepUnnest (i, stk) S = .ok (tr, (i, stk)) ∧
        ∀ p ∈ tr, (p.2.length : Int) ≤ p.1 ∧ p.1 ≤ (p.2.length : Int) + 1) := by
  intro n
  induction n with
  | zero =>
    intro S hlen
    have hS : S = [] := List.length_eq_zero.mp (Nat.le_zero.mp hlen)
    subst hS
    constructor
    · intro _ i stk hi
      refine ⟨[(i, stk)], rfl, ?_⟩
      intro p hp
      simp at hp
      subst hp
      simp
      omega
    · intro _ i stk hi
      refine ⟨[(i, stk)], rfl, ?_⟩
      intro p hp
      simp at hp
      subst hp
      simp
      omega
  | succ n ih =>
    intro S hlen
    constructor
    · intro hF i stk hi
      cases hF with
      | nil =>
        refine ⟨[(i, stk)], rfl, ?_⟩
        intro p hp
        simp at hp
        subst hp
        simp
        omega
      | plain it rest hplain hrest =>
        have hlr : rest.length ≤ n := by
          simp at hlen
          omega
        obtain ⟨tr, htr, hbound⟩ := (ih rest hlr).1 hrest i stk hi
        refine ⟨(i, stk) :: tr,
          runTrace_cons_ok (stepUnnest_plain (i, stk) it hplain) htr, ?_⟩
        intro p hp
        rcases List.mem_cons.mp hp with hp | hp
        · subst hp
          simp
          omega
        · exact hbound p hp
      | list body rest hbody hrest =>
        have hlens : body.length ≤ n ∧ rest.length ≤ n := by
          simp [List.length_append] at hlen
          omega
        have hs1 : stepUnnest (i, stk) (.beginstr "ol") = .ok (i + 1, stk) := rfl
        obtain ⟨tr1, htr1, hb1⟩ := (ih body hlens.1).2 hbody (i + 1) stk (by omega)
        have hs2 : stepUnnest (i + 1, stk) (.endstr "ol") = .ok (i, stk) := by
          simp [stepUnnest]
        obtain ⟨tr2, htr2, hb2⟩ := (ih rest hlens.2).1 hrest i stk hi
        have htail : runTrace stepUnnest (i + 1, stk) (.endstr "ol" :: rest) =
            .ok ((i + 1, stk) :: tr2, (i, stk)) := runTrace_cons_ok hs2 htr2
        have hmid := runTrace_compose stepUnnest body (i + 1, stk) tr1 (i + 1, stk)
          htr1 (.endstr "ol" :: rest) _ _ htail
        have hall := runTrace_cons_ok hs1 hmid
        refine ⟨_, hall, ?_⟩
        intro p hp
        rcases List.mem_cons.mp hp with hp | hp
        · subst hp
          simp
          omega
        · rcases List.mem_append.mp hp with hp | hp
          · exact hb1 p ((List.dropLast_sublist tr1).subset hp)
          · rcases List.mem_cons.mp hp with hp | hp
            · subst hp
              simp
              omega
            · exact hb2 p hp
    · intro hI i stk hi
      cases hI with
      | nil =>
        refine ⟨[(i, stk)], rfl, ?_⟩
        intro p hp
        simp at hp
        subst hp
        simp
        omega
      | item t t2 content rest hcontent hrest =>
        have hlens : content.length ≤ n ∧ rest.length ≤ n := by
          simp [List.length_append] at hlen
          omega
        have hs1 : stepUnnest (i, stk) (.beginstr ("li " ++ t)) =
            .ok (i, ("indent " ++ toString i ++ " " ++
              String.mk (("li " ++ t).toList.drop 3)) :: stk) := by
          simp only [stepUnnest, li_ne_ol, li_starts, Bool.false_eq_true, if_false,
            eq_self_iff_true, if_true]
        obtain ⟨tg, hs1'⟩ : ∃ tg, stepUnnest (i, stk) (.beginstr ("li " ++ t)) =
            .ok (i, tg :: stk) := ⟨_, hs1⟩
        obtain ⟨trC, htrC, hbC⟩ := (ih content hlens.1).1 hcontent i (tg :: stk)
          (by simp; omega)
        obtain ⟨trR, htrR, hbR⟩ := (ih rest hlens.2).2 hrest i stk hi
        have hs2 : stepUnnest (i, tg :: stk) (.endstr ("li " ++ t2)) = .ok (i, stk) := by
          simp only [stepUnnest, li_ne_ol, li_starts, Bool.false_eq_true, if_false,
            eq_self_iff_true, if_true]
        have htail : runTrace stepUnnest (i, tg :: stk)
            (.endstr ("li " ++ t2) :: rest) = .ok ((i, tg :: stk) :: trR, (i, stk)) :=
          runTrace_cons_ok hs2 htrR
        have hmid := runTrace_compose stepUnnest content (i, tg :: stk) trC
          (i, tg :: stk) htrC (.endstr ("li " ++ t2) :: rest) _ _ htail
        have hall := runTrace_cons_ok hs1' hmid
        refine ⟨_, hall, ?_⟩
        intro p hp
        rcases List.mem_cons.mp hp with hp | hp
        · subst hp
          simp
          omega
        · rcases List.mem_append.mp hp with hp | hp
          · exact hbC p ((List.dropLast_sublist trC).subset hp)
          · rcases List.mem_cons.mp hp with hp | hp
            · subst hp
              simp
              omega
            · exact hbR p hp

/-- C8 (counterexample): on the well-formed one-item list stream, the state
reached right after the ol open (the second trace entry, an event boundary that
is not part of any list-item close/resume transition) has indent depth 1 but an
empty stack, so stack depth does not equal indent depth there. -/
theorem claim_c8_counterexample :
    runTrace stepUnnest ((0 : Int), ([] : List String))
        [.beginstr "ol", .beginstr "li none", .endstr "li none", .endstr "ol"] =
      .ok ([((0 : Int), ([] : List String)), (1, []), (1, ["indent 1 none"]),
            (1, []), (0, [])], ((0 : Int), ([] : List String))) ∧
    ¬ (((((1 : Int), ([] : List String)).2.length : Int)) =
        ((1 : Int), ([] : List String)).1) := by
  exact ⟨by decide, by decide⟩

/-- C8 (amended): on well-formed nested-list streams, from any event boundary
whose stack depth equals its indent depth, the un-nesting state machine runs
without error back to that same state, and every event-boundary state in the
trace satisfies stack depth ≤ indent depth ≤ stack depth + 1.  Exact equality
at every boundary does not hold: the indent depth exceeds the stack depth by
one between a list open and its first item open, and between an item close and
the next item open or the list close. -/
theorem claim_c8_amended (S : List Item) (h : WFForest S) (i : Int)
    (stk : List String) (hi : (stk.length : Int) = i) :
    ∃ tr, runTrace stepUnnest (i, stk) S = .ok (tr, (i, stk)) ∧
      ∀ p ∈ tr, (p.2.length : Int) ≤ p.1 ∧ p.1 ≤ (p.2.length : Int) + 1 :=
  (unnest_state_joint S.length S (le_refl _)).1 h i stk hi

/-- C8 witness: the amended theorem applies to the one-item list stream from
the initial state. -/
theorem claim_c8_amended_witness :
    ∃ tr, runTrace stepUnnest ((0 : Int), ([] : List String))
        [.beginstr "ol", .beginstr "li none", .endstr "li none", .endstr "ol"] =
        .ok (tr, ((0 : Int), ([] : List String))) ∧
      ∀ p ∈ tr, (p.2.length : Int) ≤ p.1 ∧ p.1 ≤ (p.2.length : Int) + 1 :=
  claim_c8_amended _
    (WFForest.list [.beginstr ("li " ++ "none"), .endstr ("li " ++ "none")] []
      (WFItems.item "none" "none" [] [] WFForest.nil WFItems.nil) WFForest.nil)
    0 [] (by decide)

end KeepNote
